import Mathlib

/-!
# A shallow embedding of `werf/copy-recurse` (non-Windows implementation)

This file models the Go package `copyrec` from `copyrec_nonwindows.go`
(types from the shared declarations file) and proves properties of the
run of `CopyRecurse.Run`.

Modelling choices (spelled out so the embedding can be diffed against the
source):

* Filesystem paths (`filepath.Join`/`Rel`/`Dir`/`Clean` on absolute, clean
  paths) are modelled as lists of name components (`Path`).  `filepath.Join a b`
  is `a ++ b`, `filepath.Rel a (a ++ r)` is `r` (i.e. `List.drop a.length`),
  `filepath.Dir` of a clean path is `List.dropLast`, and
  `strings.HasPrefix`/`strings.Split` on such paths become list-prefix and the
  component list itself.  The string-level check at copyrec_nonwindows.go:303
  (`strings.HasPrefix(destPath, c.dest) && strings.TrimPrefix(...) != ""`)
  is modelled as component-prefix plus inequality, which agrees with it on
  every argument the function is called with (all call sites pass
  `c.dest ++ rel`).
* The source side of the world (everything read below `c.src`) is a static
  tree `Entry` held in the configuration; the destination side is a finite
  map `Fs` from paths to nodes.  This embodies the assumption that the run
  does not copy a tree into itself (real `os` calls would interleave
  otherwise).  `os.Lstat`/`os.Open`/`os.Readlink` on source paths are lookups
  in the tree; on destination paths they are lookups in the map.
* Every `os` call the code performs on the filesystem is recorded in an
  operation trace (`FsOp`), including the policy invocations, so that claims
  about "never re-examined", "no policy call on descendants" and "not
  modified" can be stated as trace properties.  `os.Create` + `File.Chmod` +
  `File.Chown` + `io.Copy` on one destination file (copyrec_nonwindows.go:414-433)
  mutate only that one path and are collapsed into inserting the final node,
  with one trace entry per underlying call.
* `sort.Slice(dirsToVisit, func(i, j int) bool { return i > j })`
  (copyrec_nonwindows.go:331) is the reverse-in-place idiom; it is modelled
  as `List.reverse`.
* `os.Mkdir` applies the process umask to the requested permission bits; the
  model keeps the umask in the configuration (`applyUmask`).  Symlinks are
  created with permission bits `0o777` and the identity of the calling
  process (`procUid`/`procGid`), and `os.Symlink` never chmods/chowns.
* Errors that can only arise from real I/O races (e.g. `filepath.Abs`
  failing, `os.Stat` returning an error other than not-exist) have no
  counterpart in the model; the corresponding branches return the
  non-error result they return when no such fault occurs.
-/

namespace CopyRec

/-- A clean absolute path, as its list of name components. -/
abbrev Path := List String

/-- Model of `getParentDir` (copyrec_nonwindows.go:507): `filepath.Dir(filepath.Clean(path))`. -/
def parentDir (p : Path) : Path := p.dropLast

/-- Model of `DirAction` with its three constants `DirMatch`, `DirFallThrough`, `DirSkip`. -/
inductive DirAction where
  | DirMatch
  | DirFallThrough
  | DirSkip
  deriving DecidableEq, Repr

mutual
/-- One filesystem object of the source tree, as `os.Lstat`/`fs.DirEntry.Info`
sees it: a directory with its listing, a regular file, a symlink with its
(unresolved) target, or an unsupported entry type (socket, FIFO, device, ...).
Every variant carries the permission bits, uid and gid reported by `Lstat`. -/
inductive Entry where
  | dir (perm uid gid : Nat) (children : Entries)
  | file (perm uid gid : Nat) (content : List Nat)
  | symlink (perm uid gid : Nat) (target : Path)
  | other (perm uid gid : Nat)
  deriving DecidableEq
/-- A directory listing, in the order `fs.WalkDir` visits it. -/
inductive Entries where
  | nil
  | cons (name : String) (e : Entry) (rest : Entries)
  deriving DecidableEq
end

/-- Permission bits of a source entry (`FileInfo.Mode().Perm()`). -/
def Entry.perm : Entry → Nat
  | .dir p _ _ _ => p
  | .file p _ _ _ => p
  | .symlink p _ _ _ => p
  | .other p _ _ => p

/-- Owner uid of a source entry (`Stat_t.Uid`). -/
def Entry.uid : Entry → Nat
  | .dir _ u _ _ => u
  | .file _ u _ _ => u
  | .symlink _ u _ _ => u
  | .other _ u _ => u

/-- Owner gid of a source entry (`Stat_t.Gid`). -/
def Entry.gid : Entry → Nat
  | .dir _ _ g _ => g
  | .file _ _ g _ => g
  | .symlink _ _ g _ => g
  | .other _ _ g => g

mutual
/-- Model of `os.Lstat` of the source path `c.src ++ rel`: descend the source tree
along the components of `rel`. -/
def Entry.lookup : Entry → Path → Option Entry
  | e, [] => some e
  | .dir _ _ _ cs, n :: rest => Entries.lookup cs n rest
  | _, _ :: _ => none
/-- Find the child named `n` in a listing and continue the descent. -/
def Entries.lookup : Entries → String → Path → Option Entry
  | .nil, _, _ => none
  | .cons nm e tail, n, p => if nm = n then e.lookup p else tail.lookup n p
end

/-- One destination-filesystem object, as held in the destination map. -/
inductive FsNode where
  | fdir (perm uid gid : Nat)
  | ffile (perm uid gid : Nat) (content : List Nat)
  | fsym (perm uid gid : Nat) (target : Path)
  | fother (perm uid gid : Nat)
  deriving DecidableEq

/-- The destination filesystem: a finite map from paths to nodes (first
match wins, operations keep keys unique). -/
abbrev Fs := List (Path × FsNode)

/-- Model of `os.Lstat` on the destination: `none` models `os.ErrNotExist`/`ENOTDIR`. -/
def fsLookup (fs : Fs) (p : Path) : Option FsNode :=
  match fs.find? (fun e => e.1 == p) with
  | some e => some e.2
  | none => none

def FsNode.isDir : FsNode → Bool
  | .fdir _ _ _ => true
  | _ => false

def FsNode.isSym : FsNode → Bool
  | .fsym _ _ _ _ => true
  | _ => false

def FsNode.perm : FsNode → Nat
  | .fdir p _ _ => p
  | .ffile p _ _ _ => p
  | .fsym p _ _ _ => p
  | .fother p _ _ => p

/-- Replace the permission bits of a node (`os.Chmod`). -/
def FsNode.withPerm (n : FsNode) (pm : Nat) : FsNode :=
  match n with
  | .fdir _ u g => .fdir pm u g
  | .ffile _ u g c => .ffile pm u g c
  | .fsym _ u g t => .fsym pm u g t
  | .fother _ u g => .fother pm u g

/-- Replace the ownership of a node (`os.Lchown` / `File.Chown`). -/
def FsNode.withOwner (n : FsNode) (u g : Nat) : FsNode :=
  match n with
  | .fdir p _ _ => .fdir p u g
  | .ffile p _ _ c => .ffile p u g c
  | .fsym p _ _ t => .fsym p u g t
  | .fother p _ _ => .fother p u g

/-- Model of `os.RemoveAll`: delete the path and everything beneath it. -/
def fsRemoveAll (fs : Fs) (p : Path) : Fs :=
  fs.filter (fun e => !(p.isPrefixOf e.1))

/-- Write a node at a path (used for create/replace/chmod/chown effects). -/
def fsSet (fs : Fs) (p : Path) (n : FsNode) : Fs :=
  (p, n) :: fs.filter (fun e => !(e.1 == p))

/-- Linux resolves at most 40 levels of symlinks (`os.Stat`). -/
def maxSymlinkDepth : Nat := 40

/-- Model of `os.Stat`: follow symlinks (with the kernel depth limit). -/
def statFollow (fs : Fs) : Nat → Path → Option FsNode
  | 0, p =>
    match fsLookup fs p with
    | some (.fsym _ _ _ _) => none
    | n => n
  | Nat.succ fuel, p =>
    match fsLookup fs p with
    | some (.fsym _ _ _ target) => statFollow fs fuel target
    | n => n

/-- The filesystem operations the run performs, in order.  Policy calls and
the appends to `visitedDestDirs` are recorded too, so that claims about
"no policy call below a skipped directory" and "never re-examined once
visited" are trace properties. -/
inductive FsOp where
  | opMatchDir (p : Path)
  | opMatchFile (p : Path)
  | opLstat (p : Path)
  | opMkdir (p : Path) (perm : Nat)
  | opChmod (p : Path) (perm : Nat)
  | opChown (p : Path) (uid gid : Nat)
  | opRemoveAll (p : Path)
  | opCreateFile (p : Path)
  | opSymlinkCreate (p : Path) (target : Path)
  | opWarnUnsupported (p : Path)
  | opVisited (p : Path)
  deriving DecidableEq

/-- The fields of `CopyRecurse` after `New`, together with the static source
tree and the ambient process identity/umask. -/
structure Config where
  src : Path
  dest : Path
  uid : Option Nat
  gid : Option Nat
  matchDir : Path → Except String DirAction
  matchFile : Path → Except String Bool
  abortIfDestParentDirNotExists : Bool
  srcTree : Entry
  procUid : Nat
  procGid : Nat
  umask : Nat

/-- The mutable state of one run: the destination filesystem, the
`visitedDestDirs` memo slice, and the operation trace. -/
structure RS where
  fs : Fs
  visitedDestDirs : List Path
  trace : List FsOp
  deriving DecidableEq

/-- Append operations to the trace. -/
def RS.emit (s : RS) (ops : List FsOp) : RS :=
  { s with trace := s.trace ++ ops }

/-- Model of `getNewUIDAndGID` (copyrec_nonwindows.go:511): each of uid/gid is the
override when set, otherwise the source entry's own value. -/
def getNewUIDAndGID (newDestUid newDestGid : Option Nat) (srcUid srcGid : Nat) : Nat × Nat :=
  (newDestUid.getD srcUid, newDestGid.getD srcGid)

/-- Model of `os.Mkdir` masks the requested bits with the process umask. -/
def applyUmask (umask perm : Nat) : Nat :=
  perm &&& (0o777 ^^^ (umask &&& 0o777))

/-- Model of `os.Mkdir(p, perm)`: fails if `p` exists or its parent is not an
existing directory; creates the directory owned by the calling process. -/
def fsMkdir (c : Config) (p : Path) (perm : Nat) (s : RS) : Except String RS :=
  if p.isEmpty then .error "mkdir: cannot create the root"
  else if (fsLookup s.fs p).isSome then .error "mkdir: file exists"
  else
    match fsLookup s.fs (parentDir p) with
    | some (.fdir _ _ _) =>
        .ok ({ s with fs := fsSet s.fs p (.fdir (applyUmask c.umask perm) c.procUid c.procGid) }.emit
          [FsOp.opMkdir p perm])
    | _ => .error "mkdir: parent is not an existing directory"

/-- Model of `os.MkdirAll(p, os.ModePerm)`, by fuel on the path length. -/
def fsMkdirAllAux (c : Config) : Nat → Path → RS → Except String RS
  | _, [], s => .ok s
  | 0, _ :: _, _ => .error "mkdirall: out of fuel"
  | Nat.succ fuel, p, s =>
    match fsLookup s.fs p with
    | some n => if n.isDir then .ok s else .error "mkdirall: not a directory"
    | none =>
        match fsMkdirAllAux c fuel (parentDir p) s with
        | .error e => .error e
        | .ok s1 => fsMkdir c p 0o777 s1

/-- Model of `os.MkdirAll(p, os.ModePerm)`. -/
def fsMkdirAll (c : Config) (p : Path) (s : RS) : Except String RS :=
  fsMkdirAllAux c p.length p s

/-- Model of `processDirOwnership` (copyrec_nonwindows.go:472): `os.Lchown` the
destination path to the resolved ownership. -/
def processDirOwnership (c : Config) (path : Path) (srcUid srcGid : Nat) (s : RS) :
    Except String RS :=
  match fsLookup s.fs path with
  | none => .error "lchown: no such file or directory"
  | some n =>
      .ok { s with
        fs := fsSet s.fs path (n.withOwner (getNewUIDAndGID c.uid c.gid srcUid srcGid).1
          (getNewUIDAndGID c.uid c.gid srcUid srcGid).2)
        trace := s.trace ++ [FsOp.opChown path (getNewUIDAndGID c.uid c.gid srcUid srcGid).1
          (getNewUIDAndGID c.uid c.gid srcUid srcGid).2] }

/-- Model of `createEmptyDirInChain` (copyrec_nonwindows.go:344): make one directory
of the chain exist with the source directory's permission bits, then
reconcile ownership. -/
def createEmptyDirInChain (c : Config) (destPath : Path) (s : RS) : Except String RS :=
  match c.srcTree.lookup (destPath.drop c.dest.length) with
  | none => .error "createEmptyDirInChain: error getting file info for source path"
  | some srcE =>
    match fsLookup s.fs destPath with
    | none =>
        match fsMkdir c destPath srcE.perm
            ((s.emit [FsOp.opLstat (c.src ++ destPath.drop c.dest.length)]).emit
              [FsOp.opLstat destPath]) with
        | .error e => .error e
        | .ok s2 => processDirOwnership c destPath srcE.uid srcE.gid s2
    | some destN =>
        if !destN.isDir then
          match fsMkdir c destPath srcE.perm
              ({ (s.emit [FsOp.opLstat (c.src ++ destPath.drop c.dest.length)]).emit
                  [FsOp.opLstat destPath] with
                fs := fsRemoveAll s.fs destPath }.emit [FsOp.opRemoveAll destPath]) with
          | .error e => .error e
          | .ok s4 => processDirOwnership c destPath srcE.uid srcE.gid s4
        else if srcE.perm ≠ destN.perm then
          processDirOwnership c destPath srcE.uid srcE.gid
            ({ (s.emit [FsOp.opLstat (c.src ++ destPath.drop c.dest.length)]).emit
                [FsOp.opLstat destPath] with
              fs := fsSet s.fs destPath (destN.withPerm srcE.perm) }.emit
              [FsOp.opChmod destPath srcE.perm])
        else
          processDirOwnership c destPath srcE.uid srcE.gid
            ((s.emit [FsOp.opLstat (c.src ++ destPath.drop c.dest.length)]).emit
              [FsOp.opLstat destPath])

/-- The slice `dirsToVisit` right after the build loop
(copyrec_nonwindows.go:301-313): the target and all its ancestors up to and
including `c.dest`, deepest first. -/
def buildDirsToVisit (dest destPath : Path) : List Path :=
  if dest.isPrefixOf destPath && destPath != dest then
    ((List.range (destPath.drop dest.length).length).map
      (fun i => dest ++ (destPath.drop dest.length).take (i + 1))).reverse ++ [dest]
  else [dest]

/-- The pruning loop over `visitedDestDirs` (copyrec_nonwindows.go:315-329):
for each visited dir in insertion order, find its first occurrence at index
`i` in `dirsToVisit`; `i = 0` (or an empty slice) returns early (`none`),
otherwise the slice is truncated to its first `i+1` elements. -/
def pruneDirsToVisit : List Path → List Path → Option (List Path)
  | [], dirsToVisit => some dirsToVisit
  | v :: vs, dirsToVisit =>
    if dirsToVisit.isEmpty then none
    else
      match dirsToVisit.findIdx? (fun d => d == v) with
      | none => pruneDirsToVisit vs dirsToVisit
      | some 0 => none
      | some (i + 1) => pruneDirsToVisit vs (dirsToVisit.take (i + 2))

/-- The directories `createEmptyDirsChain` actually processes, in processing
order (after the pruning loop and the reversing `sort.Slice`): `[]` when the
pruning loop returned early. -/
def chainDirsToProcess (c : Config) (destPath : Path) (visited : List Path) : List Path :=
  match pruneDirsToVisit visited (buildDirsToVisit c.dest destPath) with
  | none => []
  | some dirs => dirs.reverse

/-- The loop `for _, dir := range dirsToVisit` (copyrec_nonwindows.go:333). -/
def runChainDirs (c : Config) : List Path → RS → Except String RS
  | [], s => .ok s
  | d :: rest, s =>
      match createEmptyDirInChain c d s with
      | .error e => .error e
      | .ok s1 => runChainDirs c rest s1

/-- Model of `createEmptyDirsChain` (copyrec_nonwindows.go:292): return at once if the
target is already in `visitedDestDirs`; otherwise process
`chainDirsToProcess` in order and append it to `visitedDestDirs`.  (When the
pruning loop returns early the processed list is empty and the append is a
no-op, which coincides with the code's early `return nil`.) -/
def createEmptyDirsChain (c : Config) (destPath : Path) (s : RS) : Except String RS :=
  if destPath ∈ s.visitedDestDirs then .ok s
  else
    match runChainDirs c (chainDirsToProcess c destPath s.visitedDestDirs) s with
    | .error e => .error e
    | .ok s1 =>
        .ok ({ s1 with visitedDestDirs :=
                s1.visitedDestDirs ++ chainDirsToProcess c destPath s.visitedDestDirs }.emit
          ((chainDirsToProcess c destPath s.visitedDestDirs).map FsOp.opVisited))

/-- Model of `copyFile` (copyrec_nonwindows.go:396): open the source, remove whatever
occupies the destination, create the destination file, chmod it to the
source's permission bits, chown it to the resolved ownership, copy the bytes.
The create/chmod/chown/copy steps all mutate the single path `dest` and are
collapsed into writing the final node; each underlying call is traced. -/
def copyFile (c : Config) (srcRel : Path) (dest : Path) (s : RS) : Except String RS :=
  match c.srcTree.lookup srcRel with
  | some (Entry.file perm uid gid content) =>
    match fsLookup s.fs dest with
    | some _ =>
      match fsLookup (fsRemoveAll s.fs dest) (parentDir dest) with
      | some (.fdir _ _ _) =>
          .ok { s with
            fs := fsSet (fsRemoveAll s.fs dest) dest
              (.ffile perm (getNewUIDAndGID c.uid c.gid uid gid).1
                (getNewUIDAndGID c.uid c.gid uid gid).2 content)
            trace := s.trace ++ [FsOp.opLstat dest, FsOp.opRemoveAll dest,
              FsOp.opCreateFile dest, FsOp.opChmod dest perm,
              FsOp.opChown dest (getNewUIDAndGID c.uid c.gid uid gid).1
                (getNewUIDAndGID c.uid c.gid uid gid).2] }
      | _ => .error "create: parent is not an existing directory"
    | none =>
      match fsLookup s.fs (parentDir dest) with
      | some (.fdir _ _ _) =>
          .ok { s with
            fs := fsSet s.fs dest
              (.ffile perm (getNewUIDAndGID c.uid c.gid uid gid).1
                (getNewUIDAndGID c.uid c.gid uid gid).2 content)
            trace := s.trace ++ [FsOp.opLstat dest,
              FsOp.opCreateFile dest, FsOp.opChmod dest perm,
              FsOp.opChown dest (getNewUIDAndGID c.uid c.gid uid gid).1
                (getNewUIDAndGID c.uid c.gid uid gid).2] }
      | _ => .error "create: parent is not an existing directory"
  | some _ => .error "open: not a regular file"
  | none => .error "open: no such file or directory"

/-- Symlinks are created with permission bits 0o777 on Linux. -/
def symlinkPerm : Nat := 0o777

/-- Model of `copySymlink` (copyrec_nonwindows.go:438): read the source link's target,
remove whatever occupies the destination, create a new symlink with the
identical target.  No chmod and no chown is performed. -/
def copySymlink (c : Config) (srcRel : Path) (dest : Path) (s : RS) : Except String RS :=
  match c.srcTree.lookup srcRel with
  | some (Entry.symlink _ _ _ target) =>
      let s1 := { s with fs := fsRemoveAll s.fs dest }.emit [FsOp.opRemoveAll dest]
      match fsLookup s1.fs (parentDir dest) with
      | some (.fdir _ _ _) =>
          .ok ({ s1 with fs := fsSet s1.fs dest (.fsym symlinkPerm c.procUid c.procGid target) }.emit
            [FsOp.opSymlinkCreate dest target])
      | _ => .error "symlink: parent is not an existing directory"
  | some _ => .error "readlink: invalid argument"
  | none => .error "readlink: no such file or directory"

mutual
/-- The walk function of `copyRecurse`'s directory case
(copyrec_nonwindows.go:216-256), at the entry `relIn` below the matched
directory: `srcRelRoot`/`destRoot` are the matched directory's source-relative
and destination paths.  No policy is consulted here. -/
def copyTree (c : Config) (srcRelRoot destRoot relIn : Path) (e : Entry) (s : RS) :
    Except String RS :=
  match e with
  | .dir _ _ _ children =>
      match createEmptyDirsChain c (destRoot ++ relIn) s with
      | .error e => .error e
      | .ok s1 => copyTreeEntries c srcRelRoot destRoot relIn children s1
  | .file _ _ _ _ =>
      match createEmptyDirsChain c (parentDir (destRoot ++ relIn)) s with
      | .error e => .error e
      | .ok s1 => copyFile c (srcRelRoot ++ relIn) (destRoot ++ relIn) s1
  | .symlink _ _ _ _ =>
      match createEmptyDirsChain c (parentDir (destRoot ++ relIn)) s with
      | .error e => .error e
      | .ok s1 => copySymlink c (srcRelRoot ++ relIn) (destRoot ++ relIn) s1
  | .other _ _ _ => .ok (s.emit [FsOp.opWarnUnsupported (c.src ++ srcRelRoot ++ relIn)])
/-- Model of `fs.WalkDir` over a listing, for `copyTree`. -/
def copyTreeEntries (c : Config) (srcRelRoot destRoot relIn : Path) (es : Entries) (s : RS) :
    Except String RS :=
  match es with
  | .nil => .ok s
  | .cons nm e rest =>
      match copyTree c srcRelRoot destRoot (relIn ++ [nm]) e s with
      | .error err => .error err
      | .ok s1 => copyTreeEntries c srcRelRoot destRoot relIn rest s1
end

/-- Model of `copyRecurse` (copyrec_nonwindows.go:206): `os.Lstat` the source, then
dispatch on its type; directories are walked and copied entry by entry,
files and symlinks are copied after materializing the parent chain (skipped
when the destination is the destination root itself), and unsupported types
produce a warning and no error. -/
def copyRecurse (c : Config) (srcRel dest : Path) (s : RS) : Except String RS :=
  match c.srcTree.lookup srcRel with
  | none => .error "lstat: no such file or directory"
  | some (e@(.dir _ _ _ _)) =>
      copyTree c srcRel dest [] e (s.emit [FsOp.opLstat (c.src ++ srcRel)])
  | some (.file _ _ _ _) =>
      match (if dest ≠ c.dest then
          createEmptyDirsChain c (parentDir dest) (s.emit [FsOp.opLstat (c.src ++ srcRel)])
        else .ok (s.emit [FsOp.opLstat (c.src ++ srcRel)])) with
      | .error e => .error e
      | .ok s1 => copyFile c srcRel dest s1
  | some (.symlink _ _ _ _) =>
      match (if dest ≠ c.dest then
          createEmptyDirsChain c (parentDir dest) (s.emit [FsOp.opLstat (c.src ++ srcRel)])
        else .ok (s.emit [FsOp.opLstat (c.src ++ srcRel)])) with
      | .error e => .error e
      | .ok s1 => copySymlink c srcRel dest s1
  | some (.other _ _ _) =>
      .ok ((s.emit [FsOp.opLstat (c.src ++ srcRel)]).emit
        [FsOp.opWarnUnsupported (c.src ++ srcRel)])

mutual
/-- The walk function of `Run` (copyrec_nonwindows.go:75-97) on one source
entry at relative path `rel`, inlining `processDir` (the traversal root falls
through without a policy call; `DirSkip` maps to `fs.SkipDir`, which prunes
the subtree; `DirMatch` copies the subtree and — since `processDir` returns
`nil` — the walk still descends) and `processFile` (the file policy decides
whether to copy). -/
def runEntry (c : Config) (rel : Path) (e : Entry) (s : RS) : Except String RS :=
  match e with
  | .dir _ _ _ children =>
      if rel = [] then runEntries c rel children s
      else
        match c.matchDir (c.src ++ rel) with
        | .error msg => .error msg
        | .ok DirAction.DirMatch =>
            match copyRecurse c rel (c.dest ++ rel)
                (s.emit [FsOp.opMatchDir (c.src ++ rel)]) with
            | .error msg => .error msg
            | .ok s2 => runEntries c rel children s2
        | .ok DirAction.DirFallThrough =>
            runEntries c rel children (s.emit [FsOp.opMatchDir (c.src ++ rel)])
        | .ok DirAction.DirSkip => .ok (s.emit [FsOp.opMatchDir (c.src ++ rel)])
  | _ =>
      match c.matchFile (c.src ++ rel) with
      | .error msg => .error msg
      | .ok true => copyRecurse c rel (c.dest ++ rel) (s.emit [FsOp.opMatchFile (c.src ++ rel)])
      | .ok false => .ok (s.emit [FsOp.opMatchFile (c.src ++ rel)])
/-- Model of `fs.WalkDir` over a directory listing for `Run`'s walk. -/
def runEntries (c : Config) (rel : Path) (es : Entries) (s : RS) : Except String RS :=
  match es with
  | .nil => .ok s
  | .cons nm e rest =>
      match runEntry c (rel ++ [nm]) e s with
      | .error err => .error err
      | .ok s1 => runEntries c rel rest s1
end

/-- Model of `recreateParentDir` (copyrec_nonwindows.go:141). -/
def recreateParentDir (c : Config) (destParentDir : Path) (s : RS) : Except String RS :=
  if c.abortIfDestParentDirNotExists then
    .error "something is in place of a destination parent dir"
  else
    fsMkdirAll c destParentDir
      ({ s with fs := fsRemoveAll s.fs destParentDir }.emit [FsOp.opRemoveAll destParentDir])

/-- Model of `prepareDestParentDir` (copyrec_nonwindows.go:105). -/
def prepareDestParentDir (c : Config) (s : RS) : Except String RS :=
  match fsLookup s.fs (parentDir c.dest) with
  | none =>
      if c.abortIfDestParentDirNotExists then .error "directory does not exist"
      else fsMkdirAll c (parentDir c.dest) (s.emit [FsOp.opLstat (parentDir c.dest)])
  | some fileInfo =>
      if !fileInfo.isDir && !fileInfo.isSym then
        recreateParentDir c (parentDir c.dest) (s.emit [FsOp.opLstat (parentDir c.dest)])
      else if fileInfo.isSym then
        match statFollow (s.emit [FsOp.opLstat (parentDir c.dest)]).fs
            maxSymlinkDepth (parentDir c.dest) with
        | none => recreateParentDir c (parentDir c.dest) (s.emit [FsOp.opLstat (parentDir c.dest)])
        | some deref =>
            if !deref.isDir then
              recreateParentDir c (parentDir c.dest) (s.emit [FsOp.opLstat (parentDir c.dest)])
            else .ok (s.emit [FsOp.opLstat (parentDir c.dest)])
      else .ok (s.emit [FsOp.opLstat (parentDir c.dest)])

/-- Model of `Run` (copyrec_nonwindows.go:70): prepare the destination's parent
directory, then walk the source from its root (`walkPath` yields a single
non-directory entry when the source root is not a directory, which is
exactly `runEntry` at `rel = []`). -/
def runModel (c : Config) (s : RS) : Except String RS :=
  match prepareDestParentDir c s with
  | .error e => .error e
  | .ok s1 => runEntry c [] c.srcTree s1

/-- Model of `dereferenceDestIfDir` (copyrec_nonwindows.go:537): if the destination
exists and is a symlink whose `os.Stat` resolution is an existing directory,
replace the destination with the `os.Readlink` result; keep it otherwise. -/
def dereferenceDestIfDir (fs : Fs) (dest : Path) : Path :=
  match fsLookup fs dest with
  | some (.fsym _ _ _ target) =>
      match statFollow fs maxSymlinkDepth dest with
      | some n => if n.isDir then target else dest
      | none => dest
  | _ => dest

/-- The recognized `Options` fields (unnamed source part, lines 11-28). -/
structure Options where
  uid : Option Nat
  gid : Option Nat
  matchDir : Option (Path → Except String DirAction)
  matchFile : Option (Path → Except String Bool)
  abortIfDestParentDirNotExists : Bool

/-- Model of `New` (copyrec_nonwindows.go:21): store the (dereferenced) destination
and install the default policies when one or both are absent.  The ambient
world (`destFs` for the dereference, the source tree, process identity and
umask) is passed explicitly. -/
def New (src dest : Path) (opts : Options) (destFs : Fs) (srcTree : Entry)
    (procUid procGid umask : Nat) : Config :=
  let d := dereferenceDestIfDir destFs dest
  match opts.matchDir, opts.matchFile with
  | none, none =>
      { src := src, dest := d, uid := opts.uid, gid := opts.gid,
        matchDir := fun _ => .ok DirAction.DirMatch,
        matchFile := fun _ => .ok true,
        abortIfDestParentDirNotExists := opts.abortIfDestParentDirNotExists,
        srcTree := srcTree, procUid := procUid, procGid := procGid, umask := umask }
  | none, some mf =>
      { src := src, dest := d, uid := opts.uid, gid := opts.gid,
        matchDir := fun _ => .ok DirAction.DirFallThrough,
        matchFile := mf,
        abortIfDestParentDirNotExists := opts.abortIfDestParentDirNotExists,
        srcTree := srcTree, procUid := procUid, procGid := procGid, umask := umask }
  | some md, none =>
      { src := src, dest := d, uid := opts.uid, gid := opts.gid,
        matchDir := md,
        matchFile := fun _ => .ok true,
        abortIfDestParentDirNotExists := opts.abortIfDestParentDirNotExists,
        srcTree := srcTree, procUid := procUid, procGid := procGid, umask := umask }
  | some md, some mf =>
      { src := src, dest := d, uid := opts.uid, gid := opts.gid,
        matchDir := md,
        matchFile := mf,
        abortIfDestParentDirNotExists := opts.abortIfDestParentDirNotExists,
        srcTree := srcTree, procUid := procUid, procGid := procGid, umask := umask }


/-- Operations that change permission bits or ownership. -/
def isOwnershipOrPermOp : FsOp → Bool
  | .opChmod _ _ => true
  | .opChown _ _ _ => true
  | _ => false

/-- Does the operation possibly change what `fsLookup` returns at `q`?
Only creations at `q` itself and removals at a prefix of `q` do (mkdir,
chmod and chown at a chain directory are accounted for separately via
`visitedDestDirs`). -/
def opClobbers (op : FsOp) (q : Path) : Bool :=
  match op with
  | .opCreateFile p => p.isPrefixOf q
  | .opSymlinkCreate p _ => p.isPrefixOf q
  | _ => false

/-- Does the operation examine or mutate exactly the path `p`
(stat, mkdir, chmod, chown, remove)? -/
def opExaminesOrMutates (op : FsOp) (p : Path) : Bool :=
  match op with
  | .opLstat q => q == p
  | .opMkdir q _ => q == p
  | .opChmod q _ => q == p
  | .opChown q _ _ => q == p
  | .opRemoveAll q => q == p
  | _ => false

/-- Scan a trace for an operation that examines or mutates a path after that
path was appended to `visitedDestDirs` (second argument: paths already
visited at this point of the trace). -/
def c1ViolationAux : List FsOp → List Path → Bool
  | [], _ => false
  | op :: rest, vs =>
    vs.any (fun p => opExaminesOrMutates op p) ||
      c1ViolationAux rest
        (match op with
         | .opVisited p => p :: vs
         | _ => vs)

/-- Does the trace examine or mutate some destination directory path after
that path entered the visited set? -/
def c1Violation (tr : List FsOp) : Bool := c1ViolationAux tr []

mutual
/-- No entry of the tree is of an unsupported type. -/
def entryNoOther : Entry → Bool
  | .dir _ _ _ cs => entriesNoOther cs
  | .other _ _ _ => false
  | _ => true
/-- No entry of the listing is of an unsupported type. -/
def entriesNoOther : Entries → Bool
  | .nil => true
  | .cons _ e rest => entryNoOther e && entriesNoOther rest
end

/-- Is there a directory at `p`? -/
def isDirAt (fs : Fs) (p : Path) : Bool :=
  match fsLookup fs p with
  | some n => n.isDir
  | none => false

/-- Well-formedness of a destination filesystem: every proper prefix of a
stored path holds a directory.  (A real filesystem always satisfies this.) -/
def wfFs (fs : Fs) : Prop :=
  ∀ e ∈ fs, ∀ i : Nat, i < e.1.length → isDirAt fs (e.1.take i) = true

instance (fs : Fs) : Decidable (wfFs fs) := by
  unfold wfFs
  infer_instance


/-- A concrete run for exercising the visited-directory memo: source
`s/a/b` (nested directories), default policies, empty destination. -/
def exSrcC1 : Entry :=
  .dir 0o755 0 0 (.cons "a" (.dir 0o750 1 1 (.cons "b" (.dir 0o700 1 1 .nil) .nil)) .nil)

/-- Initial destination filesystem for the memo run: just the root directory. -/
def exFs0C1 : Fs := [([], .fdir 0o755 0 0)]

/-- The copier for the memo run (no options set, hence default policies). -/
def exCfgC1 : Config :=
  New ["s"] ["d"]
    { uid := none, gid := none, matchDir := none, matchFile := none,
      abortIfDestParentDirNotExists := false }
    exFs0C1 exSrcC1 0 0 0

/-- The operation trace of the memo run. -/
def exTraceC1 : List FsOp :=
  match runModel exCfgC1 { fs := exFs0C1, visitedDestDirs := [], trace := [] } with
  | .ok s => s.trace
  | .error _ => []

/-- A small copier whose source root has one subdirectory, for the
materialize-twice witness. -/
def exCfgC1w : Config :=
  { src := ["s"], dest := ["d"], uid := none, gid := none,
    matchDir := fun _ => .ok DirAction.DirMatch,
    matchFile := fun _ => .ok true,
    abortIfDestParentDirNotExists := false,
    srcTree := Entry.dir 0o755 0 0 (Entries.cons "a" (Entry.dir 0o750 1 1 Entries.nil) Entries.nil),
    procUid := 0, procGid := 0, umask := 0 }

/-- The state after materializing `d/a` once from an empty destination root. -/
def exChainC1 : RS :=
  (createEmptyDirsChain exCfgC1w ["d", "a"]
      { fs := [([], .fdir 0o755 0 0)], visitedDestDirs := [], trace := [] }).toOption.getD
    { fs := [], visitedDestDirs := [], trace := [] }

/-- A copier whose directory policy skips everything, for the prune witness. -/
def exCfgC2 : Config :=
  { src := ["s"], dest := ["d"], uid := none, gid := none,
    matchDir := fun _ => .ok DirAction.DirSkip,
    matchFile := fun _ => .ok true,
    abortIfDestParentDirNotExists := false,
    srcTree := Entry.dir 0o755 0 0 Entries.nil,
    procUid := 0, procGid := 0, umask := 0 }

/-- Initial state for the prune witness. -/
def exS0C2 : RS :=
  { fs := [([], .fdir 0o755 0 0), (["d"], .fdir 0o755 0 0)],
    visitedDestDirs := [], trace := [] }

/-- A copier whose source root holds one symlink `l -> t/x`, with a directory
(and a file inside it) occupying the destination path of the link. -/
def exCfgC6 : Config :=
  { src := ["s"], dest := ["d"], uid := none, gid := none,
    matchDir := fun _ => .ok DirAction.DirMatch,
    matchFile := fun _ => .ok true,
    abortIfDestParentDirNotExists := false,
    srcTree := Entry.dir 0o755 0 0
      (Entries.cons "l" (Entry.symlink 0o777 1 2 ["t", "x"]) Entries.nil),
    procUid := 5, procGid := 6, umask := 0 }

/-- Initial state for the symlink witness. -/
def exS0C6 : RS :=
  { fs := [([], .fdir 0o755 0 0), (["d"], .fdir 0o755 0 0),
           (["d", "l"], .fdir 0o700 0 0), (["d", "l", "z"], .ffile 0o644 0 0 [1])],
    visitedDestDirs := [], trace := [] }

/-- Result state of copying the symlink in the witness world. -/
def exResC6 : RS :=
  (copySymlink exCfgC6 ["l"] ["d", "l"] exS0C6).toOption.getD exS0C6


/-- Policy invocations in the trace. -/
def isPolicyOp : FsOp → Bool
  | .opMatchDir _ => true
  | .opMatchFile _ => true
  | _ => false

/-- Warnings in the trace. -/
def isWarnOp : FsOp → Bool
  | .opWarnUnsupported _ => true
  | _ => false

/-- A trace holds no warning events. -/
def noWarn (t : List FsOp) : Bool :=
  t.all (fun op => !isWarnOp op)

/-- A trace holds no policy invocation events. -/
def noPolicy (t : List FsOp) : Bool :=
  t.all (fun op => !isPolicyOp op)

/-- Is the entry one of the two copied leaf kinds (regular file or symlink)? -/
def isCopiedLeaf : Entry → Bool
  | .file _ _ _ _ => true
  | .symlink _ _ _ _ => true
  | _ => false

/-- Does the operation create a file or symlink exactly at `q`? -/
def opCreatesAt (op : FsOp) (q : Path) : Bool :=
  match op with
  | .opCreateFile p => p == q
  | .opSymlinkCreate p _ => p == q
  | _ => false

/-- One run step never shrinks the trace or the visited set, preserves
well-formedness of the destination, and changes the destination lookup only
at paths that ended up in the visited set (chain directories) or lie at or
beneath a created file/symlink (clobbered by a replace). -/
def StepOk (s s2 : RS) : Prop :=
  s.trace <+: s2.trace ∧
  s.visitedDestDirs <+: s2.visitedDestDirs ∧
  (wfFs s.fs → wfFs s2.fs) ∧
  (wfFs s.fs → ∀ q : Path,
    q ∉ s2.visitedDestDirs →
    (∀ op ∈ s2.trace, opClobbers op q = false) →
    fsLookup s2.fs q = fsLookup s.fs q)

/-- Source tree for the frame counterexample: one regular file `x`. -/
def exSrcC8 : Entry :=
  .dir 0o755 0 0 (.cons "x" (.file 0o644 1 1 [7]) .nil)

/-- Initial state for the frame counterexample: the destination already holds
a directory `d/x` with a file `d/x/y` inside it, plus an unrelated `d/keep`. -/
def exS0C8 : RS :=
  { fs := [([], .fdir 0o755 0 0), (["d"], .fdir 0o755 0 0),
           (["d", "x"], .fdir 0o755 2 2), (["d", "x", "y"], .ffile 0o640 2 2 [9]),
           (["d", "keep"], .ffile 0o600 3 3 [5])],
    visitedDestDirs := [], trace := [] }

/-- The copier for the frame counterexample (default policies). -/
def exCfgC8 : Config :=
  New ["s"] ["d"]
    { uid := none, gid := none, matchDir := none, matchFile := none,
      abortIfDestParentDirNotExists := false }
    exS0C8.fs exSrcC8 0 0 0

/-- Result state of the frame counterexample run. -/
def exResC8 : RS := (runModel exCfgC8 exS0C8).toOption.getD exS0C8

/-- A copier whose source root holds one unsupported entry (e.g. a FIFO). -/
def exCfgC9 : Config :=
  { src := ["s"], dest := ["d"], uid := none, gid := none,
    matchDir := fun _ => .ok DirAction.DirFallThrough,
    matchFile := fun _ => .ok true,
    abortIfDestParentDirNotExists := false,
    srcTree := Entry.dir 0o755 0 0 (Entries.cons "p" (Entry.other 0o644 1 1) Entries.nil),
    procUid := 0, procGid := 0, umask := 0 }

/-- Initial state for the unsupported-entry witness. -/
def exS0C9 : RS :=
  { fs := [([], .fdir 0o755 0 0), (["d"], .fdir 0o755 0 0)],
    visitedDestDirs := [], trace := [] }

/-- Result state of the unsupported-entry run (whole-run half of C9). -/
def exResC9 : RS := (runModel exCfgC9 exS0C9).toOption.getD exS0C9

/-- A copier with no unsupported entries in its source, for the soleness
half of C9: source `s/f` (regular file). -/
def exCfgC9b : Config :=
  { src := ["s"], dest := ["d"], uid := none, gid := none,
    matchDir := fun _ => .ok DirAction.DirFallThrough,
    matchFile := fun _ => .ok true,
    abortIfDestParentDirNotExists := false,
    srcTree := Entry.dir 0o755 0 0 (Entries.cons "f" (Entry.file 0o644 1 1 [3]) Entries.nil),
    procUid := 0, procGid := 0, umask := 0 }

/-- Result state of the warning-free run. -/
def exResC9b : RS := (runModel exCfgC9b exS0C9).toOption.getD exS0C9

/-- A copier for the Include-descent counterexample: the directory policy
fully matches `s/a` (which contains the file `f`), and the file policy
rejects everything. -/
def exCfgC3 : Config :=
  { src := ["s"], dest := ["d"], uid := none, gid := none,
    matchDir := fun p => if p == ["s", "a"] then .ok DirAction.DirMatch
      else .ok DirAction.DirFallThrough,
    matchFile := fun _ => .ok false,
    abortIfDestParentDirNotExists := false,
    srcTree := Entry.dir 0o755 0 0
      (Entries.cons "a"
        (Entry.dir 0o750 1 1 (Entries.cons "f" (Entry.file 0o644 1 1 [4]) Entries.nil))
        Entries.nil),
    procUid := 0, procGid := 0, umask := 0 }

/-- Initial state for the Include-descent counterexample. -/
def exS0C3 : RS :=
  { fs := [([], .fdir 0o755 0 0), (["d"], .fdir 0o755 0 0)],
    visitedDestDirs := [], trace := [] }

/-- Result state of the Include-descent run. -/
def exResC3 : RS := (runModel exCfgC3 exS0C3).toOption.getD exS0C3

/-- Result state of the `copyRecurse` call on the fully matched directory
`s/a` alone (the witness instance for the Include claim). -/
def exResC3b : RS := (copyRecurse exCfgC3 ["a"] ["d", "a"] exS0C3).toOption.getD exS0C3

/-- The Include-descent copier with a file policy that accepts everything:
used to show the re-invoked file policy is effective after a full match. -/
def exCfgC3c : Config :=
  { exCfgC3 with matchFile := fun _ => .ok true }

/-- Result state of the Include-descent run with the accepting file policy. -/
def exResC3c : RS := (runModel exCfgC3c exS0C3).toOption.getD exS0C3

/-! ## Lemmas and theorems -/


@[simp] theorem RS.emit_fs (s : RS) (ops : List FsOp) : (s.emit ops).fs = s.fs := rfl

@[simp] theorem RS.emit_visited (s : RS) (ops : List FsOp) :
    (s.emit ops).visitedDestDirs = s.visitedDestDirs := rfl

@[simp] theorem RS.emit_trace (s : RS) (ops : List FsOp) :
    (s.emit ops).trace = s.trace ++ ops := rfl

theorem find?_filter_key (fs : Fs) (p q : Path) (h : q ≠ p) :
    (fs.filter (fun e => !(e.1 == p))).find? (fun e => e.1 == q)
      = fs.find? (fun e => e.1 == q) := by
  induction fs with
  | nil => rfl
  | cons a l ih =>
    rcases Decidable.em (a.1 = p) with ha | ha
    · have h2 : (p == q) = false := beq_eq_false_iff_ne.mpr (fun hh => h hh.symm)
      simp [List.filter_cons, ha, List.find?_cons, h2, ih]
    · have h1 : (a.1 == p) = false := beq_eq_false_iff_ne.mpr ha
      cases haq : (a.1 == q) with
      | false => simp [List.filter_cons, h1, List.find?_cons, haq, ih]
      | true => simp [List.filter_cons, h1, List.find?_cons, haq]

theorem fsLookup_fsSet (fs : Fs) (p : Path) (n : FsNode) (q : Path) :
    fsLookup (fsSet fs p n) q = if q = p then some n else fsLookup fs q := by
  rcases Decidable.em (q = p) with h | h
  · subst h
    simp [fsLookup, fsSet, List.find?_cons]
  · rw [if_neg h]
    unfold fsLookup fsSet
    rw [List.find?_cons]
    have hpq : (p == q) = false := beq_eq_false_iff_ne.mpr (fun hh => h hh.symm)
    simp only [hpq, cond_false]
    rw [find?_filter_key fs p q h]

theorem find?_removeAll_of_pre (fs : Fs) (p q : Path) (h : List.isPrefixOf p q = true) :
    (fs.filter (fun e => !(List.isPrefixOf p e.1))).find? (fun e => e.1 == q) = none := by
  rw [List.find?_eq_none]
  intro x hx
  have hmem := List.mem_filter.mp hx
  have hpre : List.isPrefixOf p x.1 = false := by
    have := hmem.2
    simpa using this
  intro hxq
  have hx1 : x.1 = q := beq_iff_eq.mp hxq
  rw [hx1] at hpre
  rw [h] at hpre
  simp at hpre

theorem find?_removeAll_of_not_pre (fs : Fs) (p q : Path)
    (h : List.isPrefixOf p q = false) :
    (fs.filter (fun e => !(List.isPrefixOf p e.1))).find? (fun e => e.1 == q)
      = fs.find? (fun e => e.1 == q) := by
  induction fs with
  | nil => rfl
  | cons a l ih =>
    cases hpa : List.isPrefixOf p a.1 with
    | true =>
      have h2 : (a.1 == q) = false := by
        refine beq_eq_false_iff_ne.mpr ?_
        intro hh
        rw [hh] at hpa
        rw [h] at hpa
        simp at hpa
      simp [List.filter_cons, hpa, List.find?_cons, h2, ih]
    | false =>
      cases haq : (a.1 == q) with
      | false => simp [List.filter_cons, hpa, List.find?_cons, haq, ih]
      | true => simp [List.filter_cons, hpa, List.find?_cons, haq]

theorem fsLookup_fsRemoveAll (fs : Fs) (p q : Path) :
    fsLookup (fsRemoveAll fs p) q
      = if List.isPrefixOf p q then none else fsLookup fs q := by
  unfold fsLookup fsRemoveAll
  cases hpq : List.isPrefixOf p q with
  | true => simp [find?_removeAll_of_pre fs p q hpq]
  | false => simp [find?_removeAll_of_not_pre fs p q hpq]

/-- The field `dest` stored by `New` is the dereferenced destination, whatever
the policy defaulting did. -/
theorem New_dest (src dest : Path) (opts : Options) (destFs : Fs) (tree : Entry)
    (pu pg um : Nat) :
    (New src dest opts destFs tree pu pg um).dest = dereferenceDestIfDir destFs dest := by
  cases hmd : opts.matchDir <;> cases hmf : opts.matchFile <;> simp [New, hmd, hmf]

/-- C4: `New` installs the documented default policies: with neither policy
supplied every directory decision is `DirMatch` and every file matches (the
whole source tree is copied); with only `MatchFile` supplied the effective
directory policy returns `DirFallThrough` for every path (and the supplied
file policy is kept); with only `MatchDir` supplied the effective file policy
returns `true` for every path (and the supplied directory policy is kept). -/
theorem claim_C4 (src dest : Path) (destFs : Fs) (tree : Entry) (pu pg um : Nat)
    (uid gid : Option Nat) (ab : Bool)
    (md : Path → Except String DirAction) (mf : Path → Except String Bool) (p : Path) :
    ((New src dest ⟨uid, gid, none, none, ab⟩ destFs tree pu pg um).matchDir p
        = .ok DirAction.DirMatch
      ∧ (New src dest ⟨uid, gid, none, none, ab⟩ destFs tree pu pg um).matchFile p = .ok true)
    ∧ ((New src dest ⟨uid, gid, none, some mf, ab⟩ destFs tree pu pg um).matchDir p
        = .ok DirAction.DirFallThrough
      ∧ (New src dest ⟨uid, gid, none, some mf, ab⟩ destFs tree pu pg um).matchFile p = mf p)
    ∧ ((New src dest ⟨uid, gid, some md, none, ab⟩ destFs tree pu pg um).matchFile p = .ok true
      ∧ (New src dest ⟨uid, gid, some md, none, ab⟩ destFs tree pu pg um).matchDir p = md p) :=
  ⟨⟨rfl, rfl⟩, ⟨rfl, rfl⟩, rfl, rfl⟩

/-- C10: if at construction time the destination exists and is a symlink whose
dereferenced target (`os.Stat`) is an existing directory, `New` stores the
`os.Readlink` result (the link's target) as the destination; in every other
destination state (missing, not a symlink, or a symlink that does not resolve
to a directory) the given destination path is kept as-is. -/
theorem claim_C10 (src dest : Path) (opts : Options) (destFs : Fs) (tree : Entry)
    (pu pg um : Nat) :
    (∀ pm u g target n, fsLookup destFs dest = some (.fsym pm u g target) →
        statFollow destFs maxSymlinkDepth dest = some n → n.isDir = true →
        (New src dest opts destFs tree pu pg um).dest = target)
    ∧ (fsLookup destFs dest = none →
        (New src dest opts destFs tree pu pg um).dest = dest)
    ∧ (∀ m, fsLookup destFs dest = some m → m.isSym = false →
        (New src dest opts destFs tree pu pg um).dest = dest)
    ∧ (∀ pm u g target, fsLookup destFs dest = some (.fsym pm u g target) →
        statFollow destFs maxSymlinkDepth dest = none →
        (New src dest opts destFs tree pu pg um).dest = dest)
    ∧ (∀ pm u g target n, fsLookup destFs dest = some (.fsym pm u g target) →
        statFollow destFs maxSymlinkDepth dest = some n → n.isDir = false →
        (New src dest opts destFs tree pu pg um).dest = dest) := by
  refine ⟨?_, ?_, ?_, ?_, ?_⟩
  · intro pm u g target n h1 h2 h3
    rw [New_dest]
    unfold dereferenceDestIfDir
    rw [h1, h2]
    simp [h3]
  · intro h1
    rw [New_dest]
    unfold dereferenceDestIfDir
    rw [h1]
  · intro m h1 h2
    rw [New_dest]
    unfold dereferenceDestIfDir
    rw [h1]
    cases m with
    | fdir p' u' g' => rfl
    | ffile p' u' g' c' => rfl
    | fsym p' u' g' t' => simp [FsNode.isSym] at h2
    | fother p' u' g' => rfl
  · intro pm u g target h1 h2
    rw [New_dest]
    unfold dereferenceDestIfDir
    rw [h1, h2]
  · intro pm u g target n h1 h2 h3
    rw [New_dest]
    unfold dereferenceDestIfDir
    rw [h1, h2]
    simp [h3]

/-- Witness for C10 at a concrete world: a destination that is a symlink to an
existing directory is replaced by the link target, and a missing destination
is kept. -/
theorem claim_C10_witness :
    (New ["s"] ["lnk"]
        ⟨none, none, none, none, false⟩
        [([], FsNode.fdir 0o755 0 0), (["real"], FsNode.fdir 0o755 0 0),
         (["lnk"], FsNode.fsym 0o777 0 0 ["real"])]
        (Entry.dir 0o755 0 0 Entries.nil) 0 0 0).dest = ["real"]
    ∧ (New ["s"] ["gone"]
        ⟨none, none, none, none, false⟩
        [([], FsNode.fdir 0o755 0 0)]
        (Entry.dir 0o755 0 0 Entries.nil) 0 0 0).dest = ["gone"] := by
  constructor
  · exact (claim_C10 ["s"] ["lnk"] ⟨none, none, none, none, false⟩
      [([], FsNode.fdir 0o755 0 0), (["real"], FsNode.fdir 0o755 0 0),
       (["lnk"], FsNode.fsym 0o777 0 0 ["real"])]
      (Entry.dir 0o755 0 0 Entries.nil) 0 0 0).1 0o777 0 0 ["real"]
      (FsNode.fdir 0o755 0 0) (by rfl) (by rfl) (by rfl)
  · exact (claim_C10 ["s"] ["gone"] ⟨none, none, none, none, false⟩
      [([], FsNode.fdir 0o755 0 0)]
      (Entry.dir 0o755 0 0 Entries.nil) 0 0 0).2.1 (by rfl)

/-- C5: for every regular file the run copies (`copyFile`), the destination
file's content and permission bits equal the source's, and uid/gid are
resolved independently by `getNewUIDAndGID` — the override when set, else the
source file's own value; in particular with no overrides the destination's
content, permission bits, uid and gid all equal the source's. -/
theorem claim_C5 (c : Config) (srcRel dest : Path) (s s' : RS)
    (perm uid gid : Nat) (content : List Nat)
    (hsrc : c.srcTree.lookup srcRel = some (.file perm uid gid content))
    (hrun : copyFile c srcRel dest s = .ok s') :
    fsLookup s'.fs dest =
      some (.ffile perm (getNewUIDAndGID c.uid c.gid uid gid).1
        (getNewUIDAndGID c.uid c.gid uid gid).2 content)
    ∧ (c.uid = none → c.gid = none →
        fsLookup s'.fs dest = some (.ffile perm uid gid content)) := by
  unfold copyFile at hrun
  rw [hsrc] at hrun
  have key : fsLookup s'.fs dest =
      some (.ffile perm (getNewUIDAndGID c.uid c.gid uid gid).1
        (getNewUIDAndGID c.uid c.gid uid gid).2 content) := by
    repeat' split at hrun
    all_goals first
      | exact Except.noConfusion hrun
      | (have hinj : _ = s' := Except.ok.inj hrun
         subst hinj
         simp_all [fsLookup_fsSet])
  exact ⟨key, fun hu hg => by
    rw [key]
    simp [getNewUIDAndGID, hu, hg]⟩

/-- Witness for C5: copying a concrete file with a uid override and no gid
override yields the override uid, the source gid, and the source's content
and permission bits at the destination. -/
theorem claim_C5_witness :
    (fun c s => copyFile c ["f"] ["d", "f"] s = .ok
        { fs := [(["d", "f"], FsNode.ffile 0o754 42 1 [9, 8]), ([], FsNode.fdir 0o755 0 0),
                 (["d"], FsNode.fdir 0o755 0 0)],
          visitedDestDirs := []
          trace := [FsOp.opLstat ["d", "f"], FsOp.opCreateFile ["d", "f"],
            FsOp.opChmod ["d", "f"] 0o754, FsOp.opChown ["d", "f"] 42 1] } ∧
      fsLookup ((copyFile c ["f"] ["d", "f"] s).toOption.getD s).fs ["d", "f"]
        = some (FsNode.ffile 0o754 42 1 [9, 8]))
      { src := ["s"], dest := ["d"], uid := some 42, gid := none,
        matchDir := fun _ => .ok DirAction.DirMatch,
        matchFile := fun _ => .ok true,
        abortIfDestParentDirNotExists := false,
        srcTree := Entry.dir 0o755 0 0 (Entries.cons "f" (Entry.file 0o754 7 1 [9, 8]) Entries.nil),
        procUid := 0, procGid := 0, umask := 0 }
      { fs := [([], FsNode.fdir 0o755 0 0), (["d"], FsNode.fdir 0o755 0 0)],
        visitedDestDirs := [], trace := [] } := by
  constructor
  · rfl
  · have := claim_C5
      { src := ["s"], dest := ["d"], uid := some 42, gid := none,
        matchDir := fun _ => .ok DirAction.DirMatch,
        matchFile := fun _ => .ok true,
        abortIfDestParentDirNotExists := false,
        srcTree := Entry.dir 0o755 0 0 (Entries.cons "f" (Entry.file 0o754 7 1 [9, 8]) Entries.nil),
        procUid := 0, procGid := 0, umask := 0 }
      ["f"] ["d", "f"]
      { fs := [([], FsNode.fdir 0o755 0 0), (["d"], FsNode.fdir 0o755 0 0)],
        visitedDestDirs := [], trace := [] }
      { fs := [(["d", "f"], FsNode.ffile 0o754 42 1 [9, 8]), ([], FsNode.fdir 0o755 0 0),
               (["d"], FsNode.fdir 0o755 0 0)],
        visitedDestDirs := []
        trace := [FsOp.opLstat ["d", "f"], FsOp.opCreateFile ["d", "f"],
          FsOp.opChmod ["d", "f"] 0o754, FsOp.opChown ["d", "f"] 42 1] }
      0o754 7 1 [9, 8] (by rfl) (by rfl)
    exact this.1


/-- Bridge between the boolean prefix test and the prefix order. -/
theorem isPre_iff (l1 l2 : Path) : l1.isPrefixOf l2 = true ↔ l1 <+: l2 :=
  List.isPrefixOf_iff_prefix

/-- C6: for every symlink the run copies (`copySymlink`), whatever occupies
the destination path is removed (together with everything beneath it), a new
symlink is created whose target equals the source link's target exactly
(unresolved, never dereferenced), and the copier performs no chmod and no
chown: the created link carries the fresh-creation permission bits and the
calling process's identity, and the trace gains no ownership/permission
operation. -/
theorem claim_C6 (c : Config) (srcRel dest : Path) (s s' : RS)
    (pm u g : Nat) (target : Path)
    (hsrc : c.srcTree.lookup srcRel = some (.symlink pm u g target))
    (hrun : copySymlink c srcRel dest s = .ok s') :
    fsLookup s'.fs dest = some (.fsym symlinkPerm c.procUid c.procGid target)
    ∧ (∀ q, List.isPrefixOf dest q = true → q ≠ dest → fsLookup s'.fs q = none)
    ∧ s'.trace = s.trace ++ [FsOp.opRemoveAll dest, FsOp.opSymlinkCreate dest target]
    ∧ s'.trace.filter isOwnershipOrPermOp = s.trace.filter isOwnershipOrPermOp := by
  unfold copySymlink at hrun
  rw [hsrc] at hrun
  simp only [RS.emit_fs] at hrun
  split at hrun
  · have h' : _ = s' := Except.ok.inj hrun
    subst h'
    refine ⟨?_, ?_, ?_, ?_⟩
    · simp only [RS.emit_fs]
      rw [fsLookup_fsSet]
      simp
    · intro q hq hne
      simp only [RS.emit_fs]
      rw [fsLookup_fsSet, if_neg hne, fsLookup_fsRemoveAll, if_pos hq]
    · simp
    · simp [List.filter_append, isOwnershipOrPermOp]
  · exact absurd hrun (by simp)

/-- Witness for C6 at a concrete world: the directory occupying `d/l` (and
the file inside it) is gone, the link carries the verbatim target `t/x` with
creation-default ownership, and no chmod/chown was traced. -/
theorem claim_C6_witness :
    fsLookup exResC6.fs ["d", "l"] = some (.fsym symlinkPerm 5 6 ["t", "x"])
    ∧ fsLookup exResC6.fs ["d", "l", "z"] = none
    ∧ exResC6.trace.filter isOwnershipOrPermOp = [] := by
  have h := claim_C6 exCfgC6 ["l"] ["d", "l"] exS0C6 exResC6 0o777 1 2 ["t", "x"]
    (by rfl) (by rfl)
  exact ⟨h.1, h.2.1 ["d", "l", "z"] (by rfl) (by decide), h.2.2.2⟩

/-- A successful pruning pass keeps the head of the worklist. -/
theorem pruneDirsToVisit_some_head (vs : List Path) :
    ∀ l r, pruneDirsToVisit vs l = some r → r.head? = l.head? := by
  induction vs with
  | nil =>
    intro l r h
    unfold pruneDirsToVisit at h
    rw [Option.some.inj h]
  | cons v vs ih =>
    intro l r h
    unfold pruneDirsToVisit at h
    split at h
    · exact absurd h (by simp)
    · split at h
      · exact ih l r h
      · exact absurd h (by simp)
      · rename_i i _
        rw [ih _ r h]
        cases l with
        | nil => rfl
        | cons a t =>
          show (List.take (i + 1 + 1) (a :: t)).head? = _
          rw [List.take_succ_cons]
          rfl

/-- A successful pruning pass returns an initial segment of the worklist. -/
theorem pruneDirsToVisit_some_take (vs : List Path) :
    ∀ l r, pruneDirsToVisit vs l = some r → ∃ k, r = l.take k := by
  induction vs with
  | nil =>
    intro l r h
    unfold pruneDirsToVisit at h
    exact ⟨l.length, by rw [← Option.some.inj h, List.take_length]⟩
  | cons v vs ih =>
    intro l r h
    unfold pruneDirsToVisit at h
    split at h
    · exact absurd h (by simp)
    · split at h
      · exact ih l r h
      · exact absurd h (by simp)
      · rename_i i _
        obtain ⟨k, hk⟩ := ih _ r h
        exact ⟨min k (i + 2), by rw [hk, List.take_take]⟩

/-- When the first index found is zero the head of the list is the sought
element. -/
theorem findIdx?_zero_head (l : List Path) (v : Path)
    (h : l.findIdx? (fun d => d == v) = some 0) : l.head? = some v := by
  cases l with
  | nil => exact absurd h (by simp)
  | cons a t =>
    rw [List.findIdx?_cons] at h
    split at h
    · rename_i hav
      have : a = v := beq_iff_eq.mp hav
      rw [← this]
      rfl
    · rw [List.findIdx?_succ] at h
      obtain ⟨j, _, hj⟩ := Option.map_eq_some'.mp h
      exact absurd hj (by omega)

/-- An early return of the pruning pass means the worklist was empty or its
head (the materialization target) was already visited. -/
theorem pruneDirsToVisit_none (vs : List Path) :
    ∀ l, pruneDirsToVisit vs l = none → l = [] ∨ ∃ v ∈ vs, l.head? = some v := by
  induction vs with
  | nil =>
    intro l h
    unfold pruneDirsToVisit at h
    exact absurd h (by simp)
  | cons v vs ih =>
    intro l h
    unfold pruneDirsToVisit at h
    split at h
    · rename_i hemp
      exact Or.inl (List.isEmpty_iff.mp hemp)
    · rename_i hemp
      split at h
      · rcases ih l h with h1 | ⟨w, hw, hh⟩
        · exact Or.inl h1
        · exact Or.inr ⟨w, List.mem_cons_of_mem _ hw, hh⟩
      · rename_i hfind
        exact Or.inr ⟨v, List.mem_cons_self _ _, findIdx?_zero_head _ _ hfind⟩
      · rename_i i _
        rcases ih _ h with h1 | ⟨w, hw, hh⟩
        · rcases List.take_eq_nil_iff.mp h1 with h2 | h2
          · exact absurd h2 (by omega)
          · exact Or.inl h2
        · refine Or.inr ⟨w, List.mem_cons_of_mem _ hw, ?_⟩
          rw [← hh]
          cases l with
          | nil => rfl
          | cons a t =>
            show _ = (List.take (i + 1 + 1) (a :: t)).head?
            rw [List.take_succ_cons]
            rfl

/-- The worklist built for a destination path below the destination root
starts with that path. -/
theorem buildDirsToVisit_head (dest destPath : Path) (hpre : dest <+: destPath) :
    ∃ tl, buildDirsToVisit dest destPath = destPath :: tl := by
  unfold buildDirsToVisit
  rcases Decidable.em (destPath = dest) with hEq | hNe
  · subst hEq
    simp
  · have hb : (dest.isPrefixOf destPath && destPath != dest) = true := by
      rw [Bool.and_eq_true]
      exact ⟨(isPre_iff _ _).mpr hpre, bne_iff_ne.mpr hNe⟩
    rw [if_pos hb]
    obtain ⟨t, ht⟩ := hpre
    have htne : t ≠ [] := by
      intro h0
      rw [h0, List.append_nil] at ht
      exact hNe ht.symm
    have hparts : destPath.drop dest.length = t := by
      rw [← ht, List.drop_left]
    rw [hparts]
    cases hl : t.length with
    | zero => exact absurd (List.length_eq_zero.mp hl) htne
    | succ m =>
      rw [List.range_succ, List.map_append, List.reverse_append]
      simp only [List.map_cons, List.map_nil, List.reverse_cons, List.reverse_nil,
        List.nil_append, List.cons_append]
      have hfull : t.take (m + 1) = t := by
        rw [← hl]
        exact List.take_length t
      rw [hfull, ht]
      exact ⟨_, rfl⟩

/-- C1 (amended): materializing the same destination directory path twice in
one run performs the underlying work exactly once — a path already in
`visitedDestDirs` makes `createEmptyDirsChain` an immediate no-op (no
filesystem operation at all), and a successful materialization puts its
target into `visitedDestDirs`.  (The broader reading of the claim — that no
path in the visited set is ever examined again by the run — is refuted by
`claim_C1_counterexample`: materializing a deeper chain re-examines and
re-chowns the deepest already-visited ancestor.) -/
theorem claim_C1 (c : Config) (destPath : Path) (s s' : RS)
    (hpre : c.dest <+: destPath) :
    (destPath ∈ s.visitedDestDirs → createEmptyDirsChain c destPath s = .ok s)
    ∧ (createEmptyDirsChain c destPath s = .ok s' → destPath ∈ s'.visitedDestDirs) := by
  constructor
  · intro h
    unfold createEmptyDirsChain
    rw [if_pos h]
  · intro h
    unfold createEmptyDirsChain at h
    split at h
    · rename_i hmem
      have h' : s = s' := Except.ok.inj h
      subst h'
      exact hmem
    · rename_i hmem
      rcases hr : runChainDirs c (chainDirsToProcess c destPath s.visitedDestDirs) s with e | s1 <;>
        rw [hr] at h
      · exact absurd h (by simp)
      · have hinj : _ = s' := Except.ok.inj h
        subst hinj
        simp only [RS.emit_visited]
        refine List.mem_append.mpr (Or.inr ?_)
        unfold chainDirsToProcess
        rcases hp : pruneDirsToVisit s.visitedDestDirs (buildDirsToVisit c.dest destPath) with _ | dirs
        · obtain ⟨tl, htl⟩ := buildDirsToVisit_head c.dest destPath hpre
          rcases pruneDirsToVisit_none _ _ hp with h0 | ⟨v, hv, hh⟩
          · rw [htl] at h0
            cases h0
          · rw [htl] at hh
            have hv' : destPath = v := by
              have : some destPath = some v := hh
              exact Option.some.inj this
            exact absurd (hv' ▸ hv) hmem
        · have hhead := pruneDirsToVisit_some_head _ _ _ hp
          obtain ⟨tl, htl⟩ := buildDirsToVisit_head c.dest destPath hpre
          rw [htl] at hhead
          rw [List.mem_reverse]
          cases dirs with
          | nil => exact absurd hhead (by simp)
          | cons d ds =>
            have : d = destPath := by
              have : some d = some destPath := hhead
              exact Option.some.inj this
            rw [this]
            exact List.mem_cons_self _ _

/-- Witness for C1: after materializing `d/a` once, the target is in the
visited set and materializing it a second time returns the state unchanged
(in particular no second mkdir/chmod/chown happens). -/
theorem claim_C1_witness :
    (["d", "a"] : Path) ∈ exChainC1.visitedDestDirs
    ∧ createEmptyDirsChain exCfgC1w ["d", "a"] exChainC1 = .ok exChainC1 := by
  have hmem : (["d", "a"] : Path) ∈ exChainC1.visitedDestDirs :=
    (claim_C1 exCfgC1w ["d", "a"]
      { fs := [([], .fdir 0o755 0 0)], visitedDestDirs := [], trace := [] }
      exChainC1 (by decide)).2 (by rfl)
  exact ⟨hmem,
    (claim_C1 exCfgC1w ["d", "a"] exChainC1 exChainC1 (by decide)).1 hmem⟩

/-- Counterexample to C1 as stated: in the concrete run `exCfgC1` (default
policies, source `s/a/b`, empty destination) the run succeeds, yet the trace
examines and mutates (`lstat` and `chown`, at copyrec_nonwindows.go:354-389)
the destination directory `d/a` again after `d/a` entered the visited set:
the pruning loop keeps the deepest already-visited ancestor in the slice it
processes (`dirsToVisit[:i+1]` at copyrec_nonwindows.go:325 retains index
`i`), so `createEmptyDirsChain` for `d/a/b` re-processes `d/a`. -/
theorem claim_C1_counterexample :
    (runModel exCfgC1 { fs := exFs0C1, visitedDestDirs := [], trace := [] }).isOk = true
    ∧ c1Violation exTraceC1 = true :=
  ⟨rfl, rfl⟩

/-- C7: the directories one `createEmptyDirsChain` call processes are always
processed shallow-to-deep — every earlier directory of `chainDirsToProcess`
is a proper prefix (an ancestor) of every later one — whatever the
destination path and whatever the current visited set (hence regardless of
the source listing order that produced the calls). -/
theorem claim_C7 (c : Config) (destPath : Path) (visited : List Path) :
    List.Pairwise (fun a b => a <+: b ∧ a ≠ b) (chainDirsToProcess c destPath visited) := by
  unfold chainDirsToProcess
  split
  · exact List.Pairwise.nil
  · rename_i dirs hp
    rw [List.pairwise_reverse]
    obtain ⟨k, hk⟩ := pruneDirsToVisit_some_take _ _ _ hp
    rw [hk]
    refine List.Pairwise.sublist (List.take_sublist k _) ?_
    unfold buildDirsToVisit
    split
    · rename_i hc
      rw [Bool.and_eq_true] at hc
      obtain ⟨t, ht⟩ := (isPre_iff _ _).mp hc.1
      have htne : t ≠ [] := by
        intro h0
        rw [h0, List.append_nil] at ht
        exact (bne_iff_ne.mp hc.2) ht.symm
      have hparts : destPath.drop c.dest.length = t := by
        rw [← ht, List.drop_left]
      rw [hparts]
      refine List.pairwise_append.mpr ⟨?_, List.pairwise_singleton _ _, ?_⟩
      · rw [List.pairwise_reverse]
        rw [List.pairwise_map]
        refine List.Pairwise.imp_of_mem ?_ (List.pairwise_lt_range _)
        intro i j hi hj hij
        rw [List.mem_range] at hi hj
        constructor
        · exact (List.prefix_append_right_inj c.dest).mpr
            (List.take_prefix_take_left _ (by omega))
        · intro hfe
          have h1 := List.append_cancel_left hfe
          have h2 := congrArg List.length h1
          rw [List.length_take, List.length_take] at h2
          omega
      · intro a ha b hb
        have hb' : b = c.dest := by simpa using hb
        subst hb'
        rw [List.mem_reverse] at ha
        obtain ⟨i, hi, hfi⟩ := List.mem_map.mp ha
        constructor
        · rw [← hfi]
          exact ⟨_, rfl⟩
        · intro hde
          rw [← hfi] at hde
          have : t.take (i + 1) = [] := by
            have := congrArg List.length hde
            rw [List.length_append] at this
            have hlen : (t.take (i + 1)).length = 0 := by omega
            exact List.length_eq_zero.mp hlen
          rcases List.take_eq_nil_iff.mp this with h2 | h2
          · exact absurd h2 (by omega)
          · exact htne h2
    · exact List.pairwise_singleton _ _

/-- C2: a non-root source directory whose policy decision is `DirSkip` is
pruned immediately: processing it leaves the destination filesystem and the
visited set untouched and appends exactly the one policy probe for the
directory itself to the trace — so no policy (directory or file) is ever
invoked on a descendant, no entry below the directory is created, and the
walk continues with the siblings from an unchanged state. -/
theorem claim_C2 (c : Config) (rel : Path) (pm u g : Nat) (children : Entries) (s : RS)
    (hroot : rel ≠ [])
    (hskip : c.matchDir (c.src ++ rel) = .ok DirAction.DirSkip) :
    runEntry c rel (.dir pm u g children) s = .ok (s.emit [FsOp.opMatchDir (c.src ++ rel)])
    ∧ (s.emit [FsOp.opMatchDir (c.src ++ rel)]).fs = s.fs
    ∧ (s.emit [FsOp.opMatchDir (c.src ++ rel)]).visitedDestDirs = s.visitedDestDirs := by
  refine ⟨?_, rfl, rfl⟩
  unfold runEntry
  rw [if_neg hroot, hskip]

/-- Witness for C2: skipping the directory `s/sub` (which contains a file)
leaves the state untouched apart from the single recorded policy probe. -/
theorem claim_C2_witness :
    runEntry exCfgC2 ["sub"]
        (.dir 0o700 1 1 (Entries.cons "x" (Entry.file 0o644 1 1 []) Entries.nil)) exS0C2
      = .ok (exS0C2.emit [FsOp.opMatchDir ["s", "sub"]]) :=
  (claim_C2 exCfgC2 ["sub"] 0o700 1 1
    (Entries.cons "x" (Entry.file 0o644 1 1 []) Entries.nil) exS0C2
    (by decide) (by rfl)).1


theorem fsLookup_mem (fs : Fs) (p : Path) (n : FsNode) (h : fsLookup fs p = some n) :
    ∃ e ∈ fs, e.1 = p ∧ e.2 = n := by
  unfold fsLookup at h
  rcases hf : fs.find? (fun e => e.1 == p) with _ | e <;> rw [hf] at h
  · cases h
  · have hb := List.find?_some hf
    exact ⟨e, List.mem_of_find?_eq_some hf, beq_iff_eq.mp hb, Option.some.inj h⟩

theorem fsLookup_ne_none_of_mem (fs : Fs) (e : Path × FsNode) (h : e ∈ fs) :
    fsLookup fs e.1 ≠ none := by
  intro hn
  unfold fsLookup at hn
  rcases hf : fs.find? (fun e2 => e2.1 == e.1) with _ | e2 <;> rw [hf] at hn
  · have := List.find?_eq_none.mp hf e h
    simp at this
  · cases hn

theorem wf_lookup_chain (fs : Fs) (p : Path) (hwf : wfFs fs) (h : fsLookup fs p ≠ none) :
    ∀ i, i < p.length → isDirAt fs (p.take i) = true := by
  rcases hn : fsLookup fs p with _ | n
  · exact absurd hn h
  · obtain ⟨e, he, hk, _⟩ := fsLookup_mem fs p n hn
    intro i hi
    have := hwf e he i (by rw [hk]; exact hi)
    rw [hk] at this
    exact this

theorem pre_take {d q : Path} (h : d <+: q) : q.take d.length = d := by
  obtain ⟨t, rfl⟩ := h
  exact List.take_left d t

theorem pre_length_lt {d q : Path} (h : d <+: q) (hne : q ≠ d) : d.length < q.length := by
  rcases Nat.lt_or_ge d.length q.length with h3 | h3
  · exact h3
  · exact absurd (List.IsPrefix.eq_of_length h (Nat.le_antisymm h.length_le h3)).symm hne

/-- Below a missing path or a non-directory nothing can be stored in a
well-formed destination. -/
theorem wf_under_not_dir (fs : Fs) (d q : Path) (hwf : wfFs fs)
    (hd : isDirAt fs d = false) (hpre : d <+: q) (hne : q ≠ d) :
    fsLookup fs q = none := by
  rcases hq : fsLookup fs q with _ | n
  · rfl
  · have hch := wf_lookup_chain fs q hwf (by rw [hq]; simp) d.length (pre_length_lt hpre hne)
    rw [pre_take hpre] at hch
    rw [hch] at hd
    exact absurd hd (by simp)

/-- Replacing the node at an existing path by one of the same directory-ness
preserves well-formedness (chmod / chown). -/
theorem wf_fsSet_replace (fs : Fs) (p : Path) (m n : FsNode) (hwf : wfFs fs)
    (hm : fsLookup fs p = some m) (hdir : n.isDir = m.isDir) :
    wfFs (fsSet fs p n) := by
  have key : ∀ k : Path, fsLookup fs k ≠ none →
      ∀ i, i < k.length → isDirAt (fsSet fs p n) (k.take i) = true := by
    intro k hk i hik
    have hold := wf_lookup_chain fs k hwf hk i hik
    rcases Decidable.em (k.take i = p) with he | he
    · rw [he] at hold ⊢
      unfold isDirAt at hold ⊢
      rw [fsLookup_fsSet, if_pos rfl]
      rw [hm] at hold
      have hold2 : m.isDir = true := hold
      show n.isDir = true
      rw [hdir]
      exact hold2
    · unfold isDirAt at hold ⊢
      rw [fsLookup_fsSet, if_neg he]
      exact hold
  intro e' he' i hi
  rcases List.mem_cons.mp he' with h1 | h1
  · rw [h1]
    exact key p (by rw [hm]; simp) i (by rw [h1] at hi; exact hi)
  · exact key e'.1 (fsLookup_ne_none_of_mem fs e' (List.mem_filter.mp h1).1) i hi

/-- Writing a fresh node at a path whose parent is a directory and below
which nothing is stored preserves well-formedness (mkdir / create /
symlink). -/
theorem wf_fsSet_leaf (fs : Fs) (p : Path) (n : FsNode) (hwf : wfFs fs)
    (hp : p ≠ []) (hpar : isDirAt fs (parentDir p) = true)
    (hempty : ∀ q, p <+: q → q ≠ p → fsLookup fs q = none) :
    wfFs (fsSet fs p n) := by
  have hplen : 0 < p.length := List.length_pos.mpr hp
  have hpar' : fsLookup fs (parentDir p) ≠ none := by
    unfold isDirAt at hpar
    rcases hl : fsLookup fs (parentDir p) with _ | _
    · rw [hl] at hpar
      simp at hpar
    · simp
  have hchain : ∀ i, i < p.length → isDirAt fs (p.take i) = true := by
    intro i hi
    rcases Decidable.em (i = p.length - 1) with he | he
    · rw [he, ← List.dropLast_eq_take]
      exact hpar
    · have hi' : i < (parentDir p).length := by
        unfold parentDir
        rw [List.length_dropLast]
        omega
      have hch := wf_lookup_chain fs (parentDir p) hwf hpar' i hi'
      have heq : (parentDir p).take i = p.take i := by
        unfold parentDir
        rw [List.dropLast_eq_take, List.take_take]
        congr 1
        omega
      rw [heq] at hch
      exact hch
  have hchain' : ∀ i, i < p.length → isDirAt (fsSet fs p n) (p.take i) = true := by
    intro i hi
    have hne : p.take i ≠ p := by
      intro he
      have := congrArg List.length he
      rw [List.length_take] at this
      omega
    unfold isDirAt
    rw [fsLookup_fsSet, if_neg hne]
    exact hchain i hi
  intro e' he' i hi
  rcases List.mem_cons.mp he' with h1 | h1
  · rw [h1]
    exact hchain' i (by rw [h1] at hi; exact hi)
  · have hmem := List.mem_filter.mp h1
    have hknp : e'.1 ≠ p := by
      have := hmem.2
      simpa using this
    have hkin : fsLookup fs e'.1 ≠ none := fsLookup_ne_none_of_mem fs e' hmem.1
    have hold := wf_lookup_chain fs e'.1 hwf hkin i hi
    rcases Decidable.em (e'.1.take i = p) with he | he
    · exfalso
      have hpre : p <+: e'.1 := by
        rw [← he]
        exact List.take_prefix i e'.1
      exact hkin (hempty e'.1 hpre hknp)
    · unfold isDirAt at hold ⊢
      rw [fsLookup_fsSet, if_neg he]
      exact hold

/-- Removing a whole subtree preserves well-formedness. -/
theorem wf_fsRemoveAll (fs : Fs) (p : Path) (hwf : wfFs fs) :
    wfFs (fsRemoveAll fs p) := by
  intro e' he' i hi
  have hmem := List.mem_filter.mp he'
  have hk : List.isPrefixOf p e'.1 = false := by
    have := hmem.2
    simpa using this
  have hold := hwf e' hmem.1 i hi
  have hnp : List.isPrefixOf p (e'.1.take i) = false := by
    rcases hb : List.isPrefixOf p (e'.1.take i) with _ | _
    · rfl
    · exfalso
      have h1 : p <+: e'.1.take i := (isPre_iff _ _).mp hb
      have h3 : p <+: e'.1 := h1.trans (List.take_prefix i e'.1)
      rw [(isPre_iff _ _).mpr h3] at hk
      cases hk
  unfold isDirAt at hold ⊢
  rw [fsLookup_fsRemoveAll, if_neg (by simp [hnp])]
  exact hold


theorem FsNode.isDir_withOwner (n : FsNode) (u g : Nat) :
    (n.withOwner u g).isDir = n.isDir := by
  cases n <;> rfl

theorem FsNode.isDir_withPerm (n : FsNode) (pm : Nat) :
    (n.withPerm pm).isDir = n.isDir := by
  cases n <;> rfl

theorem pre_app2 {α : Type} (l a b : List α) : l <+: (l ++ a) ++ b :=
  ⟨a ++ b, by rw [List.append_assoc]⟩

theorem StepOk.refl (s : RS) : StepOk s s :=
  ⟨List.prefix_refl _, List.prefix_refl _, id, fun _ _ _ _ => rfl⟩

theorem StepOk.trans {s s1 s2 : RS} (A : StepOk s s1) (B : StepOk s1 s2) : StepOk s s2 := by
  obtain ⟨At, Av, Aw, Af⟩ := A
  obtain ⟨Bt, Bv, Bw, Bf⟩ := B
  refine ⟨At.trans Bt, Av.trans Bv, fun h => Bw (Aw h), ?_⟩
  intro hwf q hq hcl
  have hq1 : q ∉ s1.visitedDestDirs := fun hm => hq (Bv.subset hm)
  have hcl1 : ∀ op ∈ s1.trace, opClobbers op q = false := fun op hop => hcl op (Bt.subset hop)
  rw [Bf (Aw hwf) q hq hcl, Af hwf q hq1 hcl1]

theorem stepOk_emit (s : RS) (ops : List FsOp) : StepOk s (s.emit ops) :=
  ⟨⟨ops, rfl⟩, List.prefix_refl _, id, fun _ _ _ _ => rfl⟩

/-- Effect envelope of `os.Lchown` on one chain directory. -/
theorem processDirOwnership_spec (c : Config) (d : Path) (su sg : Nat) (s s' : RS)
    (hrun : processDirOwnership c d su sg s = .ok s') :
    (∃ t, s'.trace = s.trace ++ t) ∧
    s'.visitedDestDirs = s.visitedDestDirs ∧
    (∀ q, q ≠ d → fsLookup s'.fs q = fsLookup s.fs q) ∧
    (wfFs s.fs → wfFs s'.fs) := by
  unfold processDirOwnership at hrun
  split at hrun
  · exact Except.noConfusion hrun
  · rename_i n hn
    have hinj : _ = s' := Except.ok.inj hrun
    subst hinj
    refine ⟨⟨_, rfl⟩, rfl, ?_, ?_⟩
    · intro q hq
      show fsLookup (fsSet s.fs d _) q = fsLookup s.fs q
      rw [fsLookup_fsSet, if_neg hq]
    · intro hwf
      exact wf_fsSet_replace _ _ _ _ hwf hn (FsNode.isDir_withOwner n _ _)

/-- Effect envelope of `os.Mkdir` on one chain directory. -/
theorem fsMkdir_spec (c : Config) (p : Path) (pm : Nat) (s s' : RS)
    (hrun : fsMkdir c p pm s = .ok s') :
    (∃ t, s'.trace = s.trace ++ t) ∧
    s'.visitedDestDirs = s.visitedDestDirs ∧
    (∀ q, q ≠ p → fsLookup s'.fs q = fsLookup s.fs q) ∧
    (wfFs s.fs → wfFs s'.fs) := by
  unfold fsMkdir at hrun
  split at hrun
  · exact Except.noConfusion hrun
  · rename_i hne
    split at hrun
    · exact Except.noConfusion hrun
    · rename_i hns
      split at hrun
      · rename_i pper ppu ppg hpar
        have hinj : _ = s' := Except.ok.inj hrun
        subst hinj
        have hnone : fsLookup s.fs p = none := by
          rcases hl : fsLookup s.fs p with _ | _
          · rfl
          · rw [hl] at hns
            simp at hns
        refine ⟨⟨_, rfl⟩, rfl, ?_, ?_⟩
        · intro q hq
          show fsLookup (fsSet s.fs p _) q = fsLookup s.fs q
          rw [fsLookup_fsSet, if_neg hq]
        · intro hwf
          apply wf_fsSet_leaf _ _ _ hwf
          · intro h0
            rw [h0] at hne
            simp at hne
          · unfold isDirAt
            rw [hpar]
            rfl
          · intro q hq hqe
            apply wf_under_not_dir _ _ _ hwf _ hq hqe
            unfold isDirAt
            rw [hnone]
      · exact Except.noConfusion hrun

/-- Effect envelope of `createEmptyDirInChain`: it only appends to the trace,
leaves the visited set alone, preserves well-formedness, and (on a
well-formed destination) changes the lookup of no path other than the chain
directory itself. -/
theorem inChain_spec (c : Config) (d : Path) (s s' : RS)
    (hrun : createEmptyDirInChain c d s = .ok s') :
    (∃ t, s'.trace = s.trace ++ t) ∧
    s'.visitedDestDirs = s.visitedDestDirs ∧
    (wfFs s.fs → wfFs s'.fs ∧ ∀ q, q ≠ d → fsLookup s'.fs q = fsLookup s.fs q) := by
  unfold createEmptyDirInChain at hrun
  split at hrun
  · exact Except.noConfusion hrun
  · rename_i srcE hsrc
    split at hrun
    · rename_i hnone
      split at hrun
      · exact Except.noConfusion hrun
      · rename_i s2 hmk
        obtain ⟨⟨t2, ht2⟩, v2, f2, w2⟩ := fsMkdir_spec c d srcE.perm _ s2 hmk
        obtain ⟨⟨t3, ht3⟩, v3, f3, w3⟩ :=
          processDirOwnership_spec c d srcE.uid srcE.gid s2 s' hrun
        refine ⟨⟨[FsOp.opLstat (c.src ++ d.drop c.dest.length), FsOp.opLstat d] ++ t2 ++ t3, ?_⟩,
          ?_, ?_⟩
        · rw [ht3, ht2]
          simp
        · rw [v3, v2]
          rfl
        · intro hwf
          refine ⟨w3 (w2 hwf), ?_⟩
          intro q hq
          rw [f3 q hq, f2 q hq]
          rfl
    · rename_i destN hdest
      split at hrun
      · rename_i hnd
        split at hrun
        · exact Except.noConfusion hrun
        · rename_i s4 hmk
          obtain ⟨⟨t2, ht2⟩, v2, f2, w2⟩ := fsMkdir_spec c d srcE.perm _ s4 hmk
          obtain ⟨⟨t3, ht3⟩, v3, f3, w3⟩ :=
            processDirOwnership_spec c d srcE.uid srcE.gid s4 s' hrun
          refine ⟨⟨[FsOp.opLstat (c.src ++ d.drop c.dest.length), FsOp.opLstat d,
              FsOp.opRemoveAll d] ++ t2 ++ t3, ?_⟩, ?_, ?_⟩
          · rw [ht3, ht2]
            simp
          · rw [v3, v2]
            rfl
          · intro hwf
            refine ⟨w3 (w2 (wf_fsRemoveAll _ _ hwf)), ?_⟩
            intro q hq
            rw [f3 q hq, f2 q hq]
            show fsLookup (fsRemoveAll s.fs d) q = fsLookup s.fs q
            rw [fsLookup_fsRemoveAll]
            rcases hb : List.isPrefixOf d q with _ | _
            · rw [if_neg (by simp [hb])]
            · rw [if_pos (rfl : (true : Bool) = true)]
              symm
              refine wf_under_not_dir _ _ _ hwf ?_ ((isPre_iff _ _).mp hb) hq
              unfold isDirAt
              rw [hdest]
              show destN.isDir = false
              simpa using hnd
      · split at hrun
        · rename_i hperm
          obtain ⟨⟨t3, ht3⟩, v3, f3, w3⟩ :=
            processDirOwnership_spec c d srcE.uid srcE.gid _ s' hrun
          refine ⟨⟨[FsOp.opLstat (c.src ++ d.drop c.dest.length), FsOp.opLstat d,
              FsOp.opChmod d srcE.perm] ++ t3, ?_⟩, ?_, ?_⟩
          · rw [ht3]
            simp
          · rw [v3]
            rfl
          · intro hwf
            refine ⟨w3 (wf_fsSet_replace _ _ _ _ hwf hdest (FsNode.isDir_withPerm destN _)), ?_⟩
            intro q hq
            rw [f3 q hq]
            show fsLookup (fsSet s.fs d _) q = fsLookup s.fs q
            rw [fsLookup_fsSet, if_neg hq]
        · obtain ⟨⟨t3, ht3⟩, v3, f3, w3⟩ :=
            processDirOwnership_spec c d srcE.uid srcE.gid _ s' hrun
          refine ⟨⟨[FsOp.opLstat (c.src ++ d.drop c.dest.length), FsOp.opLstat d] ++ t3, ?_⟩,
            ?_, ?_⟩
          · rw [ht3]
            simp
          · rw [v3]
            rfl
          · intro hwf
            refine ⟨w3 hwf, ?_⟩
            intro q hq
            rw [f3 q hq]
            rfl

/-- Effect envelope of the chain-processing loop. -/
theorem runChainDirs_spec (c : Config) :
    ∀ (ds : List Path) (s s' : RS), runChainDirs c ds s = .ok s' →
    (∃ t, s'.trace = s.trace ++ t) ∧
    s'.visitedDestDirs = s.visitedDestDirs ∧
    (wfFs s.fs → wfFs s'.fs ∧ ∀ q, q ∉ ds → fsLookup s'.fs q = fsLookup s.fs q) := by
  intro ds
  induction ds with
  | nil =>
    intro s s' hrun
    have hinj : s = s' := Except.ok.inj hrun
    subst hinj
    exact ⟨⟨[], by simp⟩, rfl, fun hwf => ⟨hwf, fun q _ => rfl⟩⟩
  | cons d rest ih =>
    intro s s' hrun
    unfold runChainDirs at hrun
    split at hrun
    · exact Except.noConfusion hrun
    · rename_i s1 h1
      obtain ⟨⟨t1, ht1⟩, v1, wf1⟩ := inChain_spec c d s s1 h1
      obtain ⟨⟨t2, ht2⟩, v2, wf2⟩ := ih s1 s' hrun
      refine ⟨⟨t1 ++ t2, by rw [ht2, ht1, List.append_assoc]⟩, by rw [v2, v1], ?_⟩
      intro hwf
      obtain ⟨w1, f1⟩ := wf1 hwf
      obtain ⟨w2, f2⟩ := wf2 w1
      refine ⟨w2, ?_⟩
      intro q hq
      rw [f2 q (fun hm => hq (List.mem_cons_of_mem _ hm)),
          f1 q (fun he => hq (he ▸ List.mem_cons_self _ _))]

/-- One whole `createEmptyDirsChain` call is a well-behaved run step. -/
theorem createEmptyDirsChain_stepOk (c : Config) (destPath : Path) (s s' : RS)
    (hrun : createEmptyDirsChain c destPath s = .ok s') : StepOk s s' := by
  unfold createEmptyDirsChain at hrun
  split at hrun
  · have hinj : s = s' := Except.ok.inj hrun
    subst hinj
    exact StepOk.refl s
  · split at hrun
    · exact Except.noConfusion hrun
    · rename_i s1 h1
      have hinj : _ = s' := Except.ok.inj hrun
      subst hinj
      obtain ⟨⟨t1, ht1⟩, v1, wf1⟩ :=
        runChainDirs_spec c (chainDirsToProcess c destPath s.visitedDestDirs) s s1 h1
      refine ⟨?_, ?_, ?_, ?_⟩
      · show s.trace <+: s1.trace ++ _
        exact List.IsPrefix.trans ⟨t1, ht1.symm⟩ ⟨_, rfl⟩
      · show s.visitedDestDirs <+: s1.visitedDestDirs ++ _
        rw [v1]
        exact ⟨_, rfl⟩
      · intro hwf
        exact (wf1 hwf).1
      · intro hwf q hq hcl
        show fsLookup s1.fs q = fsLookup s.fs q
        refine (wf1 hwf).2 q ?_
        intro hm
        refine hq ?_
        show q ∈ s1.visitedDestDirs ++ chainDirsToProcess c destPath s.visitedDestDirs
        exact List.mem_append.mpr (Or.inr hm)

/-- One `copyFile` call is a well-behaved run step. -/
theorem copyFile_stepOk (c : Config) (srcRel dest : Path) (s s' : RS)
    (hrun : copyFile c srcRel dest s = .ok s') : StepOk s s' := by
  unfold copyFile at hrun
  split at hrun
  · rename_i perm uid gid content hsrc
    split at hrun
    · rename_i n0 hdest
      split at hrun
      · rename_i pper ppu ppg hpar
        have hinj : _ = s' := Except.ok.inj hrun
        subst hinj
        refine ⟨⟨_, rfl⟩, List.prefix_refl _, ?_, ?_⟩
        · intro hwf
          apply wf_fsSet_leaf _ _ _ (wf_fsRemoveAll _ _ hwf)
          · intro h0
            subst h0
            have : fsLookup (fsRemoveAll s.fs ([] : Path)) (parentDir ([] : Path)) = none := by
              rw [fsLookup_fsRemoveAll]
              rfl
            rw [this] at hpar
            exact Option.noConfusion hpar
          · unfold isDirAt
            rw [hpar]
            rfl
          · intro q hq hqe
            rw [fsLookup_fsRemoveAll, if_pos ((isPre_iff _ _).mpr hq)]
        · intro hwf q hq hcl
          have hc := hcl (FsOp.opCreateFile dest) (by simp)
          have hpre : List.isPrefixOf dest q = false := by simpa [opClobbers] using hc
          have hqd : q ≠ dest := by
            intro h0
            subst h0
            rw [(isPre_iff _ _).mpr (List.prefix_refl q)] at hpre
            exact Bool.noConfusion hpre
          show fsLookup (fsSet (fsRemoveAll s.fs dest) dest _) q = fsLookup s.fs q
          rw [fsLookup_fsSet, if_neg hqd, fsLookup_fsRemoveAll, if_neg (by simp [hpre])]
      · exact Except.noConfusion hrun
    · rename_i hdest
      split at hrun
      · rename_i pper ppu ppg hpar
        have hinj : _ = s' := Except.ok.inj hrun
        subst hinj
        refine ⟨⟨_, rfl⟩, List.prefix_refl _, ?_, ?_⟩
        · intro hwf
          apply wf_fsSet_leaf _ _ _ hwf
          · intro h0
            subst h0
            rw [show parentDir ([] : Path) = ([] : Path) from rfl] at hpar
            rw [hdest] at hpar
            exact Option.noConfusion hpar
          · unfold isDirAt
            rw [hpar]
            rfl
          · intro q hq hqe
            apply wf_under_not_dir _ _ _ hwf _ hq hqe
            unfold isDirAt
            rw [hdest]
        · intro hwf q hq hcl
          have hc := hcl (FsOp.opCreateFile dest) (by simp)
          have hpre : List.isPrefixOf dest q = false := by simpa [opClobbers] using hc
          have hqd : q ≠ dest := by
            intro h0
            subst h0
            rw [(isPre_iff _ _).mpr (List.prefix_refl q)] at hpre
            exact Bool.noConfusion hpre
          show fsLookup (fsSet s.fs dest _) q = fsLookup s.fs q
          rw [fsLookup_fsSet, if_neg hqd]
      · exact Except.noConfusion hrun
  · exact Except.noConfusion hrun
  · exact Except.noConfusion hrun

/-- One `copySymlink` call is a well-behaved run step. -/
theorem copySymlink_stepOk (c : Config) (srcRel dest : Path) (s s' : RS)
    (hrun : copySymlink c srcRel dest s = .ok s') : StepOk s s' := by
  unfold copySymlink at hrun
  split at hrun
  · rename_i pm u g target hsrc
    simp only [RS.emit_fs] at hrun
    split at hrun
    · rename_i pper ppu ppg hpar
      have hinj : _ = s' := Except.ok.inj hrun
      subst hinj
      refine ⟨?_, List.prefix_refl _, ?_, ?_⟩
      · show s.trace <+: (s.trace ++ _) ++ _
        exact pre_app2 _ _ _
      · intro hwf
        apply wf_fsSet_leaf _ _ _ (wf_fsRemoveAll _ _ hwf)
        · intro h0
          subst h0
          have : fsLookup (fsRemoveAll s.fs ([] : Path)) (parentDir ([] : Path)) = none := by
            rw [fsLookup_fsRemoveAll]
            rfl
          rw [this] at hpar
          exact Option.noConfusion hpar
        · unfold isDirAt
          rw [hpar]
          rfl
        · intro q hq hqe
          rw [fsLookup_fsRemoveAll, if_pos ((isPre_iff _ _).mpr hq)]
      · intro hwf q hq hcl
        have hc := hcl (FsOp.opSymlinkCreate dest target) (by simp)
        have hpre : List.isPrefixOf dest q = false := by simpa [opClobbers] using hc
        have hqd : q ≠ dest := by
          intro h0
          subst h0
          rw [(isPre_iff _ _).mpr (List.prefix_refl q)] at hpre
          exact Bool.noConfusion hpre
        show fsLookup (fsSet (fsRemoveAll s.fs dest) dest _) q = fsLookup s.fs q
        rw [fsLookup_fsSet, if_neg hqd, fsLookup_fsRemoveAll, if_neg (by simp [hpre])]
    · exact Except.noConfusion hrun
  · exact Except.noConfusion hrun
  · exact Except.noConfusion hrun

mutual
/-- Frame property of one `copyRecurse` walk step over a subtree. -/
theorem copyTree_stepOk : ∀ (c : Config) (srcRelRoot destRoot relIn : Path) (e : Entry)
    (s s' : RS), copyTree c srcRelRoot destRoot relIn e s = .ok s' → StepOk s s' := by
  intro c srcRelRoot destRoot relIn e s s' hrun
  cases e with
  | dir pm u g children =>
      unfold copyTree at hrun
      split at hrun
      · exact Except.noConfusion hrun
      · rename_i s1 h1
        exact StepOk.trans (createEmptyDirsChain_stepOk c _ s s1 h1)
          (copyTreeEntries_stepOk c srcRelRoot destRoot relIn children s1 s' hrun)
  | file pm u g content =>
      unfold copyTree at hrun
      split at hrun
      · exact Except.noConfusion hrun
      · rename_i s1 h1
        exact StepOk.trans (createEmptyDirsChain_stepOk c _ s s1 h1)
          (copyFile_stepOk c _ _ s1 s' hrun)
  | symlink pm u g target =>
      unfold copyTree at hrun
      split at hrun
      · exact Except.noConfusion hrun
      · rename_i s1 h1
        exact StepOk.trans (createEmptyDirsChain_stepOk c _ s s1 h1)
          (copySymlink_stepOk c _ _ s1 s' hrun)
  | other pm u g =>
      unfold copyTree at hrun
      have hinj : _ = s' := Except.ok.inj hrun
      subst hinj
      exact stepOk_emit s _
/-- Frame property of the subtree walk over a listing. -/
theorem copyTreeEntries_stepOk : ∀ (c : Config) (srcRelRoot destRoot relIn : Path)
    (es : Entries) (s s' : RS),
    copyTreeEntries c srcRelRoot destRoot relIn es s = .ok s' → StepOk s s' := by
  intro c srcRelRoot destRoot relIn es s s' hrun
  cases es with
  | nil =>
      unfold copyTreeEntries at hrun
      have hinj : s = s' := Except.ok.inj hrun
      subst hinj
      exact StepOk.refl s
  | cons nm e rest =>
      unfold copyTreeEntries at hrun
      split at hrun
      · exact Except.noConfusion hrun
      · rename_i s1 h1
        exact StepOk.trans (copyTree_stepOk c srcRelRoot destRoot (relIn ++ [nm]) e s s1 h1)
          (copyTreeEntries_stepOk c srcRelRoot destRoot relIn rest s1 s' hrun)
end

/-- Frame property of one `copyRecurse` call. -/
theorem copyRecurse_stepOk (c : Config) (srcRel dest : Path) (s s' : RS)
    (hrun : copyRecurse c srcRel dest s = .ok s') : StepOk s s' := by
  unfold copyRecurse at hrun
  split at hrun
  · exact Except.noConfusion hrun
  · exact StepOk.trans (stepOk_emit s _) (copyTree_stepOk c _ _ _ _ _ s' hrun)
  · rename_i hsrc
    split at hrun
    · exact Except.noConfusion hrun
    · rename_i s1 h1
      refine StepOk.trans ?_ (copyFile_stepOk c _ _ s1 s' hrun)
      by_cases hdd : dest ≠ c.dest
      · rw [if_pos hdd] at h1
        exact StepOk.trans (stepOk_emit s _) (createEmptyDirsChain_stepOk c _ _ s1 h1)
      · rw [if_neg hdd] at h1
        have hinj : _ = s1 := Except.ok.inj h1
        subst hinj
        exact stepOk_emit s _
  · rename_i hsrc
    split at hrun
    · exact Except.noConfusion hrun
    · rename_i s1 h1
      refine StepOk.trans ?_ (copySymlink_stepOk c _ _ s1 s' hrun)
      by_cases hdd : dest ≠ c.dest
      · rw [if_pos hdd] at h1
        exact StepOk.trans (stepOk_emit s _) (createEmptyDirsChain_stepOk c _ _ s1 h1)
      · rw [if_neg hdd] at h1
        have hinj : _ = s1 := Except.ok.inj h1
        subst hinj
        exact stepOk_emit s _
  · have hinj : _ = s' := Except.ok.inj hrun
    subst hinj
    exact StepOk.trans (stepOk_emit s _) (stepOk_emit _ _)

mutual
/-- Frame property of the outer walk on one entry. -/
theorem runEntry_stepOk : ∀ (c : Config) (rel : Path) (e : Entry) (s s' : RS),
    runEntry c rel e s = .ok s' → StepOk s s' := by
  intro c rel e s s' hrun
  cases e with
  | dir pm u g children =>
      unfold runEntry at hrun
      split at hrun
      · exact runEntries_stepOk c rel children s s' hrun
      · split at hrun
        · exact Except.noConfusion hrun
        · split at hrun
          · exact Except.noConfusion hrun
          · rename_i s2 h2
            exact StepOk.trans (StepOk.trans (stepOk_emit s _)
              (copyRecurse_stepOk c _ _ _ s2 h2))
              (runEntries_stepOk c rel children s2 s' hrun)
        · exact StepOk.trans (stepOk_emit s _)
            (runEntries_stepOk c rel children _ s' hrun)
        · have hinj : _ = s' := Except.ok.inj hrun
          subst hinj
          exact stepOk_emit s _
  | file pm u g content =>
      unfold runEntry at hrun
      split at hrun
      · exact Except.noConfusion hrun
      · exact StepOk.trans (stepOk_emit s _) (copyRecurse_stepOk c _ _ _ s' hrun)
      · have hinj : _ = s' := Except.ok.inj hrun
        subst hinj
        exact stepOk_emit s _
  | symlink pm u g target =>
      unfold runEntry at hrun
      split at hrun
      · exact Except.noConfusion hrun
      · exact StepOk.trans (stepOk_emit s _) (copyRecurse_stepOk c _ _ _ s' hrun)
      · have hinj : _ = s' := Except.ok.inj hrun
        subst hinj
        exact stepOk_emit s _
  | other pm u g =>
      unfold runEntry at hrun
      split at hrun
      · exact Except.noConfusion hrun
      · exact StepOk.trans (stepOk_emit s _) (copyRecurse_stepOk c _ _ _ s' hrun)
      · have hinj : _ = s' := Except.ok.inj hrun
        subst hinj
        exact stepOk_emit s _
/-- Frame property of the outer walk over a listing. -/
theorem runEntries_stepOk : ∀ (c : Config) (rel : Path) (es : Entries) (s s' : RS),
    runEntries c rel es s = .ok s' → StepOk s s' := by
  intro c rel es s s' hrun
  cases es with
  | nil =>
      unfold runEntries at hrun
      have hinj : s = s' := Except.ok.inj hrun
      subst hinj
      exact StepOk.refl s
  | cons nm e rest =>
      unfold runEntries at hrun
      split at hrun
      · exact Except.noConfusion hrun
      · rename_i s1 h1
        exact StepOk.trans (runEntry_stepOk c (rel ++ [nm]) e s s1 h1)
          (runEntries_stepOk c rel rest s1 s' hrun)
end

/-- When the destination's parent directory already exists as a plain
directory, `prepareDestParentDir` only records the `os.Lstat` call. -/
theorem prepareDestParentDir_parent_dir (c : Config) (s : RS) (pp pu pg : Nat)
    (hpar : fsLookup s.fs (parentDir c.dest) = some (.fdir pp pu pg)) :
    prepareDestParentDir c s = .ok (s.emit [FsOp.opLstat (parentDir c.dest)]) := by
  unfold prepareDestParentDir
  rw [hpar]
  rfl

/-- Claim C8 (amended): the run mutates only destination paths that end up in
the visited-directory set (the materialized ancestor-chain directories) or
that lie at or below a destination path where the run created a file or a
symlink.  Every other destination path — in particular every destination file
that corresponds to no copied source entry and sits under no replaced path —
survives the run with an unchanged lookup (same type, content, mode and
ownership).  The original claim is stronger and false: a destination file
under a directory that the run replaces by a file or symlink corresponds to
no copied source entry, yet is deleted (see the counterexample). -/
theorem claim_C8 (c : Config) (s s' : RS) (pp pu pg : Nat)
    (hwf : wfFs s.fs)
    (hpar : fsLookup s.fs (parentDir c.dest) = some (FsNode.fdir pp pu pg))
    (hrun : runModel c s = .ok s')
    (q : Path) (hqv : q ∉ s'.visitedDestDirs)
    (hqc : ∀ op ∈ s'.trace, opClobbers op q = false) :
    fsLookup s'.fs q = fsLookup s.fs q := by
  unfold runModel at hrun
  rw [prepareDestParentDir_parent_dir c s pp pu pg hpar] at hrun
  have hrun2 : runEntry c [] c.srcTree (s.emit [FsOp.opLstat (parentDir c.dest)]) = .ok s' :=
    hrun
  have hall := StepOk.trans (stepOk_emit s [FsOp.opLstat (parentDir c.dest)])
    (runEntry_stepOk c [] c.srcTree _ s' hrun2)
  exact hall.2.2.2 hwf q hqv hqc

/-- Counterexample to the literal claim C8: in the run `exResC8` the source
holds a regular file `x` where the destination holds a directory `d/x` with a
file `d/x/y` inside.  The run succeeds, the destination file `d/x/y`
corresponds to no copied source entry, is never put into the visited set, and
no create operation targets it exactly — yet it does not survive: the replace
step deletes it together with the directory `d/x`. -/
theorem claim_C8_counterexample :
    (runModel exCfgC8 exS0C8).isOk = true ∧
    fsLookup exS0C8.fs ["d", "x", "y"] = some (FsNode.ffile 0o640 2 2 [9]) ∧
    fsLookup exResC8.fs ["d", "x", "y"] = none ∧
    exResC8.visitedDestDirs.contains ["d", "x", "y"] = false ∧
    exResC8.trace.all (fun op => !opCreatesAt op ["d", "x", "y"]) = true :=
  ⟨rfl, rfl, rfl, rfl, rfl⟩

/-- Witness for claim C8 at a concrete run: the unrelated destination file
`d/keep` survives the `exCfgC8` run unchanged. -/
theorem claim_C8_witness :
    fsLookup exResC8.fs ["d", "keep"] = fsLookup exS0C8.fs ["d", "keep"] :=
  claim_C8 exCfgC8 exS0C8 exResC8 0o755 0 0 (by decide) rfl rfl ["d", "keep"]
    (by decide) (by decide)

theorem noWarn_append (t1 t2 : List FsOp) :
    noWarn (t1 ++ t2) = (noWarn t1 && noWarn t2) := by
  simp [noWarn, List.all_append]

/-- The `os.Mkdir` model emits no warning. -/
theorem fsMkdir_noWarn (c : Config) (p : Path) (pm : Nat) (s s' : RS)
    (hrun : fsMkdir c p pm s = .ok s') (hw : noWarn s.trace = true) :
    noWarn s'.trace = true := by
  unfold fsMkdir at hrun
  repeat' split at hrun
  all_goals first
  | exact Except.noConfusion hrun
  | (have hinj : _ = s' := Except.ok.inj hrun
     subst hinj
     simpa [noWarn, List.all_append, isWarnOp] using hw)

/-- The `os.Lchown` model emits no warning. -/
theorem processDirOwnership_noWarn (c : Config) (d : Path) (su sg : Nat) (s s' : RS)
    (hrun : processDirOwnership c d su sg s = .ok s') (hw : noWarn s.trace = true) :
    noWarn s'.trace = true := by
  unfold processDirOwnership at hrun
  repeat' split at hrun
  all_goals first
  | exact Except.noConfusion hrun
  | (have hinj : _ = s' := Except.ok.inj hrun
     subst hinj
     simpa [noWarn, List.all_append, isWarnOp] using hw)

/-- `createEmptyDirInChain` emits no warning. -/
theorem inChain_noWarn (c : Config) (d : Path) (s s' : RS)
    (hrun : createEmptyDirInChain c d s = .ok s') (hw : noWarn s.trace = true) :
    noWarn s'.trace = true := by
  unfold createEmptyDirInChain at hrun
  split at hrun
  · exact Except.noConfusion hrun
  · rename_i srcE hsrc
    split at hrun
    · split at hrun
      · exact Except.noConfusion hrun
      · rename_i s2 hmk
        refine processDirOwnership_noWarn c d srcE.uid srcE.gid s2 s' hrun
          (fsMkdir_noWarn c d srcE.perm _ s2 hmk ?_)
        simpa [noWarn, List.all_append, isWarnOp] using hw
    · split at hrun
      · split at hrun
        · exact Except.noConfusion hrun
        · rename_i s4 hmk
          refine processDirOwnership_noWarn c d srcE.uid srcE.gid s4 s' hrun
            (fsMkdir_noWarn c d srcE.perm _ s4 hmk ?_)
          simpa [noWarn, List.all_append, isWarnOp] using hw
      · split at hrun
        · refine processDirOwnership_noWarn c d srcE.uid srcE.gid _ s' hrun ?_
          simpa [noWarn, List.all_append, isWarnOp] using hw
        · refine processDirOwnership_noWarn c d srcE.uid srcE.gid _ s' hrun ?_
          simpa [noWarn, List.all_append, isWarnOp] using hw

/-- The chain-processing loop emits no warning. -/
theorem runChainDirs_noWarn (c : Config) :
    ∀ (ds : List Path) (s s' : RS), runChainDirs c ds s = .ok s' →
    noWarn s.trace = true → noWarn s'.trace = true := by
  intro ds
  induction ds with
  | nil =>
      intro s s' hrun hw
      have hinj : s = s' := Except.ok.inj hrun
      subst hinj
      exact hw
  | cons d rest ih =>
      intro s s' hrun hw
      unfold runChainDirs at hrun
      split at hrun
      · exact Except.noConfusion hrun
      · rename_i s1 h1
        exact ih s1 s' hrun (inChain_noWarn c d s s1 h1 hw)

/-- `createEmptyDirsChain` emits no warning. -/
theorem createEmptyDirsChain_noWarn (c : Config) (destPath : Path) (s s' : RS)
    (hrun : createEmptyDirsChain c destPath s = .ok s') (hw : noWarn s.trace = true) :
    noWarn s'.trace = true := by
  unfold createEmptyDirsChain at hrun
  split at hrun
  · have hinj : s = s' := Except.ok.inj hrun
    subst hinj
    exact hw
  · split at hrun
    · exact Except.noConfusion hrun
    · rename_i s1 h1
      have hinj : _ = s' := Except.ok.inj hrun
      subst hinj
      have hw1 := runChainDirs_noWarn c _ s s1 h1 hw
      simp only [RS.emit_trace]
      rw [noWarn_append, Bool.and_eq_true]
      exact ⟨hw1, by simp [noWarn, List.all_map, Function.comp, isWarnOp]⟩

/-- `copyFile` emits no warning. -/
theorem copyFile_noWarn (c : Config) (srcRel dest : Path) (s s' : RS)
    (hrun : copyFile c srcRel dest s = .ok s') (hw : noWarn s.trace = true) :
    noWarn s'.trace = true := by
  unfold copyFile at hrun
  repeat' split at hrun
  all_goals first
  | exact Except.noConfusion hrun
  | (have hinj : _ = s' := Except.ok.inj hrun
     subst hinj
     simpa [noWarn, List.all_append, isWarnOp] using hw)

/-- `copySymlink` emits no warning. -/
theorem copySymlink_noWarn (c : Config) (srcRel dest : Path) (s s' : RS)
    (hrun : copySymlink c srcRel dest s = .ok s') (hw : noWarn s.trace = true) :
    noWarn s'.trace = true := by
  unfold copySymlink at hrun
  split at hrun
  · rename_i pm u g target hsrc
    simp only [RS.emit_fs] at hrun
    split at hrun
    · rename_i pper ppu ppg hpar
      have hinj : _ = s' := Except.ok.inj hrun
      subst hinj
      simpa [noWarn, List.all_append, isWarnOp] using hw
    · exact Except.noConfusion hrun
  · exact Except.noConfusion hrun
  · exact Except.noConfusion hrun

/-- The `os.MkdirAll` model emits no warning. -/
theorem fsMkdirAllAux_noWarn (c : Config) :
    ∀ (fuel : Nat) (p : Path) (s s' : RS), fsMkdirAllAux c fuel p s = .ok s' →
    noWarn s.trace = true → noWarn s'.trace = true := by
  intro fuel
  induction fuel with
  | zero =>
      intro p s s' hrun hw
      cases p with
      | nil =>
          have hinj : s = s' := Except.ok.inj hrun
          subst hinj
          exact hw
      | cons a as => exact Except.noConfusion hrun
  | succ fuel ih =>
      intro p s s' hrun hw
      cases p with
      | nil =>
          have hinj : s = s' := Except.ok.inj hrun
          subst hinj
          exact hw
      | cons a as =>
          unfold fsMkdirAllAux at hrun
          repeat' split at hrun
          all_goals first
          | exact Except.noConfusion hrun
          | (have hinj : _ = s' := Except.ok.inj hrun
             subst hinj
             exact hw)
          | (rename_i s1 h1
             exact fsMkdir_noWarn c _ _ s1 s' hrun (ih _ s s1 h1 hw))

/-- Wrapper form of the `os.MkdirAll` no-warning lemma. -/
theorem fsMkdirAll_noWarn (c : Config) (p : Path) (s s' : RS)
    (hrun : fsMkdirAll c p s = .ok s') (hw : noWarn s.trace = true) :
    noWarn s'.trace = true :=
  fsMkdirAllAux_noWarn c p.length p s s' hrun hw

/-- `recreateParentDir` emits no warning. -/
theorem recreateParentDir_noWarn (c : Config) (dpd : Path) (s s' : RS)
    (hrun : recreateParentDir c dpd s = .ok s') (hw : noWarn s.trace = true) :
    noWarn s'.trace = true := by
  unfold recreateParentDir at hrun
  split at hrun
  · exact Except.noConfusion hrun
  · refine fsMkdirAll_noWarn c _ _ s' hrun ?_
    simpa [noWarn, List.all_append, isWarnOp] using hw

/-- `prepareDestParentDir` emits no warning. -/
theorem prepareDestParentDir_noWarn (c : Config) (s s' : RS)
    (hrun : prepareDestParentDir c s = .ok s') (hw : noWarn s.trace = true) :
    noWarn s'.trace = true := by
  unfold prepareDestParentDir at hrun
  repeat' split at hrun
  all_goals first
  | exact Except.noConfusion hrun
  | (have hinj : _ = s' := Except.ok.inj hrun
     subst hinj
     simpa [noWarn, List.all_append, isWarnOp] using hw)
  | (refine fsMkdirAll_noWarn c _ _ s' hrun ?_
     simpa [noWarn, List.all_append, isWarnOp] using hw)
  | (refine recreateParentDir_noWarn c _ _ s' hrun ?_
     simpa [noWarn, List.all_append, isWarnOp] using hw)

mutual
/-- A looked-up entry of a tree without unsupported entries is itself without
unsupported entries. -/
theorem lookup_noOther : ∀ (t : Entry) (r : Path) (e : Entry),
    entryNoOther t = true → Entry.lookup t r = some e → entryNoOther e = true := by
  intro t r e hno hl
  cases r with
  | nil =>
      cases t <;> exact (Option.some.inj hl) ▸ hno
  | cons n rest =>
      cases t with
      | dir pm u g cs =>
          exact lookupEntries_noOther cs n rest e (by simpa [entryNoOther] using hno) hl
      | file pm u g content => exact Option.noConfusion hl
      | symlink pm u g target => exact Option.noConfusion hl
      | other pm u g => exact Option.noConfusion hl
/-- Listing form of `lookup_noOther`. -/
theorem lookupEntries_noOther : ∀ (cs : Entries) (n : String) (p : Path) (e : Entry),
    entriesNoOther cs = true → Entries.lookup cs n p = some e → entryNoOther e = true := by
  intro cs n p e hno hl
  cases cs with
  | nil => exact Option.noConfusion hl
  | cons nm e1 tail =>
      have hno2 := hno
      simp only [entriesNoOther, Bool.and_eq_true] at hno2
      unfold Entries.lookup at hl
      split at hl
      · exact lookup_noOther e1 p e hno2.1 hl
      · exact lookupEntries_noOther tail n p e hno2.2 hl
end

mutual
/-- A subtree walk over a tree without unsupported entries emits no warning. -/
theorem copyTree_noWarn : ∀ (c : Config) (srcRelRoot destRoot : Path) (e : Entry)
    (relIn : Path) (s s' : RS), entryNoOther e = true →
    copyTree c srcRelRoot destRoot relIn e s = .ok s' →
    noWarn s.trace = true → noWarn s'.trace = true := by
  intro c srcRelRoot destRoot e relIn s s' hno hrun hw
  cases e with
  | dir pm u g children =>
      unfold copyTree at hrun
      split at hrun
      · exact Except.noConfusion hrun
      · rename_i s1 h1
        exact copyTreeEntries_noWarn c srcRelRoot destRoot children relIn s1 s'
          (by simpa [entryNoOther] using hno) hrun
          (createEmptyDirsChain_noWarn c _ s s1 h1 hw)
  | file pm u g content =>
      unfold copyTree at hrun
      split at hrun
      · exact Except.noConfusion hrun
      · rename_i s1 h1
        exact copyFile_noWarn c _ _ s1 s' hrun
          (createEmptyDirsChain_noWarn c _ s s1 h1 hw)
  | symlink pm u g target =>
      unfold copyTree at hrun
      split at hrun
      · exact Except.noConfusion hrun
      · rename_i s1 h1
        exact copySymlink_noWarn c _ _ s1 s' hrun
          (createEmptyDirsChain_noWarn c _ s s1 h1 hw)
  | other pm u g =>
      simp [entryNoOther] at hno
/-- Listing form of `copyTree_noWarn`. -/
theorem copyTreeEntries_noWarn : ∀ (c : Config) (srcRelRoot destRoot : Path)
    (es : Entries) (relIn : Path) (s s' : RS), entriesNoOther es = true →
    copyTreeEntries c srcRelRoot destRoot relIn es s = .ok s' →
    noWarn s.trace = true → noWarn s'.trace = true := by
  intro c srcRelRoot destRoot es relIn s s' hno hrun hw
  cases es with
  | nil =>
      have hinj : s = s' := Except.ok.inj hrun
      subst hinj
      exact hw
  | cons nm e rest =>
      unfold copyTreeEntries at hrun
      split at hrun
      · exact Except.noConfusion hrun
      · rename_i s1 h1
        have hno2 := hno
        simp only [entriesNoOther, Bool.and_eq_true] at hno2
        exact copyTreeEntries_noWarn c srcRelRoot destRoot rest relIn s1 s' hno2.2 hrun
          (copyTree_noWarn c srcRelRoot destRoot e (relIn ++ [nm]) s s1 hno2.1 h1 hw)
end

/-- `copyRecurse` on a tree without unsupported entries emits no warning. -/
theorem copyRecurse_noWarn (c : Config) (srcRel dest : Path) (s s' : RS)
    (hno : entryNoOther c.srcTree = true)
    (hrun : copyRecurse c srcRel dest s = .ok s')
    (hw : noWarn s.trace = true) : noWarn s'.trace = true := by
  unfold copyRecurse at hrun
  split at hrun
  · exact Except.noConfusion hrun
  · rename_i hsrc
    exact copyTree_noWarn c srcRel dest _ [] _ s'
      (lookup_noOther c.srcTree srcRel _ hno hsrc) hrun
      (by simpa [noWarn, List.all_append, isWarnOp] using hw)
  · rename_i hsrc
    split at hrun
    · exact Except.noConfusion hrun
    · rename_i s1 h1
      refine copyFile_noWarn c srcRel dest s1 s' hrun ?_
      by_cases hdd : dest ≠ c.dest
      · rw [if_pos hdd] at h1
        exact createEmptyDirsChain_noWarn c _ _ s1 h1
          (by simpa [noWarn, List.all_append, isWarnOp] using hw)
      · rw [if_neg hdd] at h1
        have hinj : _ = s1 := Except.ok.inj h1
        subst hinj
        simpa [noWarn, List.all_append, isWarnOp] using hw
  · rename_i hsrc
    split at hrun
    · exact Except.noConfusion hrun
    · rename_i s1 h1
      refine copySymlink_noWarn c srcRel dest s1 s' hrun ?_
      by_cases hdd : dest ≠ c.dest
      · rw [if_pos hdd] at h1
        exact createEmptyDirsChain_noWarn c _ _ s1 h1
          (by simpa [noWarn, List.all_append, isWarnOp] using hw)
      · rw [if_neg hdd] at h1
        have hinj : _ = s1 := Except.ok.inj h1
        subst hinj
        simpa [noWarn, List.all_append, isWarnOp] using hw
  · rename_i hsrc
    have hne := lookup_noOther c.srcTree srcRel _ hno hsrc
    simp [entryNoOther] at hne

mutual
/-- The outer walk over a tree without unsupported entries emits no warning. -/
theorem runEntry_noWarn : ∀ (c : Config) (e : Entry) (rel : Path) (s s' : RS),
    entryNoOther c.srcTree = true → entryNoOther e = true →
    runEntry c rel e s = .ok s' → noWarn s.trace = true → noWarn s'.trace = true := by
  intro c e rel s s' hnoT hno hrun hw
  cases e with
  | dir pm u g children =>
      unfold runEntry at hrun
      split at hrun
      · exact runEntries_noWarn c children rel s s' hnoT
          (by simpa [entryNoOther] using hno) hrun hw
      · split at hrun
        · exact Except.noConfusion hrun
        · split at hrun
          · exact Except.noConfusion hrun
          · rename_i s2 h2
            exact runEntries_noWarn c children rel s2 s' hnoT
              (by simpa [entryNoOther] using hno) hrun
              (copyRecurse_noWarn c _ _ _ s2 hnoT h2
                (by simpa [noWarn, List.all_append, isWarnOp] using hw))
        · exact runEntries_noWarn c children rel _ s' hnoT
            (by simpa [entryNoOther] using hno) hrun
            (by simpa [noWarn, List.all_append, isWarnOp] using hw)
        · have hinj : _ = s' := Except.ok.inj hrun
          subst hinj
          simpa [noWarn, List.all_append, isWarnOp] using hw
  | file pm u g content =>
      unfold runEntry at hrun
      split at hrun
      · exact Except.noConfusion hrun
      · exact copyRecurse_noWarn c _ _ _ s' hnoT hrun
          (by simpa [noWarn, List.all_append, isWarnOp] using hw)
      · have hinj : _ = s' := Except.ok.inj hrun
        subst hinj
        simpa [noWarn, List.all_append, isWarnOp] using hw
  | symlink pm u g target =>
      unfold runEntry at hrun
      split at hrun
      · exact Except.noConfusion hrun
      · exact copyRecurse_noWarn c _ _ _ s' hnoT hrun
          (by simpa [noWarn, List.all_append, isWarnOp] using hw)
      · have hinj : _ = s' := Except.ok.inj hrun
        subst hinj
        simpa [noWarn, List.all_append, isWarnOp] using hw
  | other pm u g =>
      simp [entryNoOther] at hno
/-- Listing form of `runEntry_noWarn`. -/
theorem runEntries_noWarn : ∀ (c : Config) (es : Entries) (rel : Path) (s s' : RS),
    entryNoOther c.srcTree = true → entriesNoOther es = true →
    runEntries c rel es s = .ok s' → noWarn s.trace = true → noWarn s'.trace = true := by
  intro c es rel s s' hnoT hno hrun hw
  cases es with
  | nil =>
      have hinj : s = s' := Except.ok.inj hrun
      subst hinj
      exact hw
  | cons nm e rest =>
      unfold runEntries at hrun
      split at hrun
      · exact Except.noConfusion hrun
      · rename_i s1 h1
        have hno2 := hno
        simp only [entriesNoOther, Bool.and_eq_true] at hno2
        exact runEntries_noWarn c rest rel s1 s' hnoT hno2.2 hrun
          (runEntry_noWarn c e (rel ++ [nm]) s s1 hnoT hno2.1 h1 hw)
end

/-- A whole run over a tree without unsupported entries emits no warning. -/
theorem runModel_noWarn (c : Config) (s s' : RS)
    (hno : entryNoOther c.srcTree = true) (hrun : runModel c s = .ok s')
    (hw : noWarn s.trace = true) : noWarn s'.trace = true := by
  unfold runModel at hrun
  split at hrun
  · exact Except.noConfusion hrun
  · rename_i s1 h1
    exact runEntry_noWarn c c.srcTree [] s1 s' hno hno hrun
      (prepareDestParentDir_noWarn c s s1 h1 hw)

/-- Claim C9: a source entry that is neither a directory, a regular file nor a
symlink makes `copyRecurse` record the warning and return success (no error),
and this is the sole warning-and-skip condition: a run over a source tree
with no unsupported entry never adds a warning to the trace. -/
theorem claim_C9 :
    (∀ (c : Config) (srcRel dest : Path) (s : RS) (pm u g : Nat),
      c.srcTree.lookup srcRel = some (Entry.other pm u g) →
      copyRecurse c srcRel dest s =
        .ok ((s.emit [FsOp.opLstat (c.src ++ srcRel)]).emit
          [FsOp.opWarnUnsupported (c.src ++ srcRel)])) ∧
    (∀ (c : Config) (s s' : RS), entryNoOther c.srcTree = true →
      runModel c s = .ok s' → noWarn s.trace = true → noWarn s'.trace = true) := by
  constructor
  · intro c srcRel dest s pm u g hsrc
    unfold copyRecurse
    rw [hsrc]
  · intro c s s' hno hrun hw
    exact runModel_noWarn c s s' hno hrun hw

/-- Witness for claim C9: the FIFO-like entry `s/p` of `exCfgC9` is resolved
as a recorded warning without an error, and the warning-free run `exResC9b`
over a source with no unsupported entry has a warning-free trace. -/
theorem claim_C9_witness :
    copyRecurse exCfgC9 ["p"] ["d", "p"] exS0C9 =
      .ok ((exS0C9.emit [FsOp.opLstat (exCfgC9.src ++ ["p"])]).emit
        [FsOp.opWarnUnsupported (exCfgC9.src ++ ["p"])]) ∧
    noWarn exResC9b.trace = true :=
  ⟨claim_C9.1 exCfgC9 ["p"] ["d", "p"] exS0C9 0o644 1 1 rfl,
   claim_C9.2 exCfgC9b exS0C9 exResC9b rfl rfl rfl⟩

/-- The `os.Mkdir` model records no policy invocation. -/
theorem fsMkdir_noPolicy (c : Config) (p : Path) (pm : Nat) (s s' : RS)
    (hrun : fsMkdir c p pm s = .ok s') (hp : noPolicy s.trace = true) :
    noPolicy s'.trace = true := by
  unfold fsMkdir at hrun
  repeat' split at hrun
  all_goals first
  | exact Except.noConfusion hrun
  | (have hinj : _ = s' := Except.ok.inj hrun
     subst hinj
     simpa [noPolicy, List.all_append, isPolicyOp] using hp)

/-- The `os.Lchown` model records no policy invocation. -/
theorem processDirOwnership_noPolicy (c : Config) (d : Path) (su sg : Nat) (s s' : RS)
    (hrun : processDirOwnership c d su sg s = .ok s') (hp : noPolicy s.trace = true) :
    noPolicy s'.trace = true := by
  unfold processDirOwnership at hrun
  repeat' split at hrun
  all_goals first
  | exact Except.noConfusion hrun
  | (have hinj : _ = s' := Except.ok.inj hrun
     subst hinj
     simpa [noPolicy, List.all_append, isPolicyOp] using hp)

/-- `createEmptyDirInChain` records no policy invocation. -/
theorem inChain_noPolicy (c : Config) (d : Path) (s s' : RS)
    (hrun : createEmptyDirInChain c d s = .ok s') (hp : noPolicy s.trace = true) :
    noPolicy s'.trace = true := by
  unfold createEmptyDirInChain at hrun
  split at hrun
  · exact Except.noConfusion hrun
  · rename_i srcE hsrc
    split at hrun
    · split at hrun
      · exact Except.noConfusion hrun
      · rename_i s2 hmk
        refine processDirOwnership_noPolicy c d srcE.uid srcE.gid s2 s' hrun
          (fsMkdir_noPolicy c d srcE.perm _ s2 hmk ?_)
        simpa [noPolicy, List.all_append, isPolicyOp] using hp
    · split at hrun
      · split at hrun
        · exact Except.noConfusion hrun
        · rename_i s4 hmk
          refine processDirOwnership_noPolicy c d srcE.uid srcE.gid s4 s' hrun
            (fsMkdir_noPolicy c d srcE.perm _ s4 hmk ?_)
          simpa [noPolicy, List.all_append, isPolicyOp] using hp
      · split at hrun
        · refine processDirOwnership_noPolicy c d srcE.uid srcE.gid _ s' hrun ?_
          simpa [noPolicy, List.all_append, isPolicyOp] using hp
        · refine processDirOwnership_noPolicy c d srcE.uid srcE.gid _ s' hrun ?_
          simpa [noPolicy, List.all_append, isPolicyOp] using hp

/-- The chain-processing loop records no policy invocation. -/
theorem runChainDirs_noPolicy (c : Config) :
    ∀ (ds : List Path) (s s' : RS), runChainDirs c ds s = .ok s' →
    noPolicy s.trace = true → noPolicy s'.trace = true := by
  intro ds
  induction ds with
  | nil =>
      intro s s' hrun hp
      have hinj : s = s' := Except.ok.inj hrun
      subst hinj
      exact hp
  | cons d rest ih =>
      intro s s' hrun hp
      unfold runChainDirs at hrun
      split at hrun
      · exact Except.noConfusion hrun
      · rename_i s1 h1
        exact ih s1 s' hrun (inChain_noPolicy c d s s1 h1 hp)

/-- `createEmptyDirsChain` records no policy invocation. -/
theorem createEmptyDirsChain_noPolicy (c : Config) (destPath : Path) (s s' : RS)
    (hrun : createEmptyDirsChain c destPath s = .ok s') (hp : noPolicy s.trace = true) :
    noPolicy s'.trace = true := by
  unfold createEmptyDirsChain at hrun
  split at hrun
  · have hinj : s = s' := Except.ok.inj hrun
    subst hinj
    exact hp
  · split at hrun
    · exact Except.noConfusion hrun
    · rename_i s1 h1
      have hinj : _ = s' := Except.ok.inj hrun
      subst hinj
      have hp1 := runChainDirs_noPolicy c _ s s1 h1 hp
      simp only [RS.emit_trace]
      rw [show noPolicy = fun t => t.all (fun op => !isPolicyOp op) from rfl]
      simp only [List.all_append, Bool.and_eq_true]
      exact ⟨hp1, by simp [List.all_map, Function.comp, isPolicyOp]⟩

/-- `copyFile` records no policy invocation. -/
theorem copyFile_noPolicy (c : Config) (srcRel dest : Path) (s s' : RS)
    (hrun : copyFile c srcRel dest s = .ok s') (hp : noPolicy s.trace = true) :
    noPolicy s'.trace = true := by
  unfold copyFile at hrun
  repeat' split at hrun
  all_goals first
  | exact Except.noConfusion hrun
  | (have hinj : _ = s' := Except.ok.inj hrun
     subst hinj
     simpa [noPolicy, List.all_append, isPolicyOp] using hp)

/-- `copySymlink` records no policy invocation. -/
theorem copySymlink_noPolicy (c : Config) (srcRel dest : Path) (s s' : RS)
    (hrun : copySymlink c srcRel dest s = .ok s') (hp : noPolicy s.trace = true) :
    noPolicy s'.trace = true := by
  unfold copySymlink at hrun
  split at hrun
  · rename_i pm u g target hsrc
    simp only [RS.emit_fs] at hrun
    split at hrun
    · rename_i pper ppu ppg hpar
      have hinj : _ = s' := Except.ok.inj hrun
      subst hinj
      simpa [noPolicy, List.all_append, isPolicyOp] using hp
    · exact Except.noConfusion hrun
  · exact Except.noConfusion hrun
  · exact Except.noConfusion hrun

mutual
/-- The subtree copy records no policy invocation: once a directory is fully
matched, neither policy is consulted again by the copy of its subtree. -/
theorem copyTree_noPolicy : ∀ (c : Config) (srcRelRoot destRoot : Path) (e : Entry)
    (relIn : Path) (s s' : RS), copyTree c srcRelRoot destRoot relIn e s = .ok s' →
    noPolicy s.trace = true → noPolicy s'.trace = true := by
  intro c srcRelRoot destRoot e relIn s s' hrun hp
  cases e with
  | dir pm u g children =>
      unfold copyTree at hrun
      split at hrun
      · exact Except.noConfusion hrun
      · rename_i s1 h1
        exact copyTreeEntries_noPolicy c srcRelRoot destRoot children relIn s1 s' hrun
          (createEmptyDirsChain_noPolicy c _ s s1 h1 hp)
  | file pm u g content =>
      unfold copyTree at hrun
      split at hrun
      · exact Except.noConfusion hrun
      · rename_i s1 h1
        exact copyFile_noPolicy c _ _ s1 s' hrun
          (createEmptyDirsChain_noPolicy c _ s s1 h1 hp)
  | symlink pm u g target =>
      unfold copyTree at hrun
      split at hrun
      · exact Except.noConfusion hrun
      · rename_i s1 h1
        exact copySymlink_noPolicy c _ _ s1 s' hrun
          (createEmptyDirsChain_noPolicy c _ s s1 h1 hp)
  | other pm u g =>
      unfold copyTree at hrun
      have hinj : _ = s' := Except.ok.inj hrun
      subst hinj
      simpa [noPolicy, List.all_append, isPolicyOp] using hp
/-- Listing form of `copyTree_noPolicy`. -/
theorem copyTreeEntries_noPolicy : ∀ (c : Config) (srcRelRoot destRoot : Path)
    (es : Entries) (relIn : Path) (s s' : RS),
    copyTreeEntries c srcRelRoot destRoot relIn es s = .ok s' →
    noPolicy s.trace = true → noPolicy s'.trace = true := by
  intro c srcRelRoot destRoot es relIn s s' hrun hp
  cases es with
  | nil =>
      have hinj : s = s' := Except.ok.inj hrun
      subst hinj
      exact hp
  | cons nm e rest =>
      unfold copyTreeEntries at hrun
      split at hrun
      · exact Except.noConfusion hrun
      · rename_i s1 h1
        exact copyTreeEntries_noPolicy c srcRelRoot destRoot rest relIn s1 s' hrun
          (copyTree_noPolicy c srcRelRoot destRoot e (relIn ++ [nm]) s s1 h1 hp)
end

/-- `copyFile` puts the file-creation event at the destination into the
trace. -/
theorem copyFile_creates (c : Config) (srcRel dest : Path) (s s' : RS)
    (hrun : copyFile c srcRel dest s = .ok s') :
    FsOp.opCreateFile dest ∈ s'.trace := by
  unfold copyFile at hrun
  repeat' split at hrun
  all_goals first
  | exact Except.noConfusion hrun
  | (have hinj : _ = s' := Except.ok.inj hrun
     subst hinj
     simp)

/-- `copySymlink` puts the symlink-creation event at the destination into the
trace. -/
theorem copySymlink_creates (c : Config) (srcRel dest : Path) (s s' : RS)
    (hrun : copySymlink c srcRel dest s = .ok s') :
    ∃ t, FsOp.opSymlinkCreate dest t ∈ s'.trace := by
  unfold copySymlink at hrun
  split at hrun
  · rename_i pm u g target hsrc
    simp only [RS.emit_fs] at hrun
    split at hrun
    · rename_i pper ppu ppg hpar
      have hinj : _ = s' := Except.ok.inj hrun
      subst hinj
      exact ⟨target, by simp⟩
    · exact Except.noConfusion hrun
  · exact Except.noConfusion hrun
  · exact Except.noConfusion hrun

mutual
/-- Every regular-file or symlink entry of a subtree that `copyTree` copies
gives rise to a creation event at the corresponding destination path. -/
theorem copyTree_creates : ∀ (c : Config) (srcRelRoot destRoot : Path) (e : Entry)
    (relIn : Path) (s s' : RS), copyTree c srcRelRoot destRoot relIn e s = .ok s' →
    ∀ (sub : Path) (e2 : Entry), Entry.lookup e sub = some e2 → isCopiedLeaf e2 = true →
    ∃ op, op ∈ s'.trace ∧ opCreatesAt op (destRoot ++ relIn ++ sub) = true := by
  intro c srcRelRoot destRoot e relIn s s' hrun sub e2 hl hleaf
  cases e with
  | dir pm u g children =>
      cases sub with
      | nil =>
          have he2 : Entry.dir pm u g children = e2 := Option.some.inj hl
          subst he2
          simp [isCopiedLeaf] at hleaf
      | cons n rest =>
          unfold copyTree at hrun
          split at hrun
          · exact Except.noConfusion hrun
          · rename_i s1 h1
            have hl2 : Entries.lookup children n rest = some e2 := hl
            exact copyTreeEntries_creates c srcRelRoot destRoot children relIn s1 s' hrun
              n rest e2 hl2 hleaf
  | file fp fu fg content =>
      cases sub with
      | nil =>
          unfold copyTree at hrun
          split at hrun
          · exact Except.noConfusion hrun
          · rename_i s1 h1
            refine ⟨FsOp.opCreateFile (destRoot ++ relIn),
              copyFile_creates c _ _ s1 s' hrun, ?_⟩
            simp [opCreatesAt]
      | cons n rest => exact Option.noConfusion hl
  | symlink sp su sg target =>
      cases sub with
      | nil =>
          unfold copyTree at hrun
          split at hrun
          · exact Except.noConfusion hrun
          · rename_i s1 h1
            obtain ⟨t, ht⟩ := copySymlink_creates c _ _ s1 s' hrun
            refine ⟨FsOp.opSymlinkCreate (destRoot ++ relIn) t, ht, ?_⟩
            simp [opCreatesAt]
      | cons n rest => exact Option.noConfusion hl
  | other pm u g =>
      cases sub with
      | nil =>
          have he2 : Entry.other pm u g = e2 := Option.some.inj hl
          subst he2
          simp [isCopiedLeaf] at hleaf
      | cons n rest => exact Option.noConfusion hl
/-- Listing form of `copyTree_creates`. -/
theorem copyTreeEntries_creates : ∀ (c : Config) (srcRelRoot destRoot : Path)
    (es : Entries) (relIn : Path) (s s' : RS),
    copyTreeEntries c srcRelRoot destRoot relIn es s = .ok s' →
    ∀ (n : String) (rest : Path) (e2 : Entry), Entries.lookup es n rest = some e2 →
    isCopiedLeaf e2 = true →
    ∃ op, op ∈ s'.trace ∧ opCreatesAt op (destRoot ++ relIn ++ (n :: rest)) = true := by
  intro c srcRelRoot destRoot es relIn s s' hrun n rest e2 hl hleaf
  cases es with
  | nil => exact Option.noConfusion hl
  | cons nm e1 tail =>
      unfold copyTreeEntries at hrun
      split at hrun
      · exact Except.noConfusion hrun
      · rename_i s1 h1
        unfold Entries.lookup at hl
        split at hl
        · rename_i heqn
          obtain ⟨op, hop, hat⟩ :=
            copyTree_creates c srcRelRoot destRoot e1 (relIn ++ [nm]) s s1 h1 rest e2 hl hleaf
          have hmono := (copyTreeEntries_stepOk c srcRelRoot destRoot relIn tail s1 s' hrun).1
          refine ⟨op, hmono.subset hop, ?_⟩
          subst heqn
          have hpe : destRoot ++ (relIn ++ [nm]) ++ rest = destRoot ++ relIn ++ (nm :: rest) := by
            simp
          rw [← hpe]
          exact hat
        · exact copyTreeEntries_creates c srcRelRoot destRoot tail relIn s1 s' hrun
            n rest e2 hl hleaf
end

/-- Claim C3 (amended): a fully matched directory is copied unconditionally —
the copy of its subtree consults neither policy (it adds no policy event of
its own to the trace) and creates every regular-file and symlink entry of the
subtree at its destination path, regardless of the file policy.  The original
claim additionally asserts that no policy is evaluated for any descendant
afterwards; that part is false: `processDir` returns success (not a skip
signal) after the fully matched copy, so the outer walk still descends and
re-invokes both policies on every descendant, and those re-invocations are
effective — a file policy that accepts a descendant makes the walk copy that
file a second time (see the counterexample, which exhibits both the
re-invocation and the resulting double creation). -/
theorem claim_C3 (c : Config) (srcRel dest : Path) (s s' : RS) (pm u g : Nat)
    (children : Entries)
    (hsrc : c.srcTree.lookup srcRel = some (Entry.dir pm u g children))
    (hrun : copyRecurse c srcRel dest s = .ok s') :
    (noPolicy s.trace = true → noPolicy s'.trace = true) ∧
    (∀ (sub : Path) (e2 : Entry),
      Entry.lookup (Entry.dir pm u g children) sub = some e2 → isCopiedLeaf e2 = true →
      ∃ op, op ∈ s'.trace ∧ opCreatesAt op (dest ++ sub) = true) := by
  unfold copyRecurse at hrun
  rw [hsrc] at hrun
  have hrun2 : copyTree c srcRel dest [] (Entry.dir pm u g children)
      (s.emit [FsOp.opLstat (c.src ++ srcRel)]) = .ok s' := hrun
  constructor
  · intro hp
    exact copyTree_noPolicy c srcRel dest _ [] _ s' hrun2
      (by simpa [noPolicy, List.all_append, isPolicyOp] using hp)
  · intro sub e2 hl hleaf
    obtain ⟨op, hop, hat⟩ :=
      copyTree_creates c srcRel dest _ [] _ s' hrun2 sub e2 hl hleaf
    refine ⟨op, hop, ?_⟩
    have hpe : dest ++ ([] : Path) ++ sub = dest ++ sub := by simp
    rw [← hpe]
    exact hat

/-- Counterexample to the pruning half of claim C3: in the run `exResC3` the
directory policy fully matches `s/a`, the run succeeds — and yet the file
policy is still invoked on the descendant `s/a/f` afterwards, because the
walk is not pruned after a full match.  Moreover the re-invocation is
effective: in the same world with a file policy that accepts everything
(`exResC3c`), the run creates the already-copied file `d/a/f` a second
time — the trace holds exactly two creation events for it. -/
theorem claim_C3_counterexample :
    exCfgC3.matchDir ["s", "a"] = .ok DirAction.DirMatch ∧
    (runModel exCfgC3 exS0C3).isOk = true ∧
    FsOp.opMatchFile ["s", "a", "f"] ∈ exResC3.trace ∧
    (runModel exCfgC3c exS0C3).isOk = true ∧
    exResC3c.trace.count (FsOp.opCreateFile ["d", "a", "f"]) = 2 :=
  ⟨rfl, rfl, by decide, rfl, rfl⟩

/-- Witness for claim C3 at a concrete fully matched directory: the
`copyRecurse` call on `s/a` records no policy event and creates the file
`d/a/f` even though the file policy rejects everything. -/
theorem claim_C3_witness :
    noPolicy exResC3b.trace = true ∧
    (∃ op, op ∈ exResC3b.trace ∧ opCreatesAt op (["d", "a"] ++ ["f"]) = true) :=
  ⟨(claim_C3 exCfgC3 ["a"] ["d", "a"] exS0C3 exResC3b 0o750 1 1
      (Entries.cons "f" (Entry.file 0o644 1 1 [4]) Entries.nil) rfl rfl).1 rfl,
   (claim_C3 exCfgC3 ["a"] ["d", "a"] exS0C3 exResC3b 0o750 1 1
      (Entries.cons "f" (Entry.file 0o644 1 1 [4]) Entries.nil) rfl rfl).2
     ["f"] (Entry.file 0o644 1 1 [4]) rfl rfl⟩

end CopyRec
